import Mathlib

/-!
Shallow embedding of the `mycarhub-fleet-analytics` cross-repository graph
aggregator (files `src/carhubClient.js` and `src/fleetAggregator.js`) and the
theorems settling the specification claims about it.

Modelling conventions:
* JavaScript numbers are modelled as exact rationals, represented as
  unnormalised pairs (integer numerator, natural denominator) so that all
  arithmetic is kernel-reducible.  `NaN` is modelled as `Option.none` at the
  points where `Number(...)` conversion can produce it.
* JavaScript values (results of `JSON.parse`, vehicle records, ...) are
  modelled by the inductive type `JsVal`.  Property access `v.k` is `getProp`,
  which faithfully throws (returns `Except.error`) on `null`/`undefined`
  receivers and yields `undefined` for absent keys.
* File reads through `readFileSafe` / `fs.existsSync` / `fs.readdirSync`, the
  external `JSON.parse`, and the random `nanoid` generator are inputs of the
  computation, collected in the `Env` structure.  `nanoids` is the stream of
  successive `nanoid(...)` results, consumed in call order.
* Thrown exceptions are modelled with `Except String`.
-/

namespace FleetSpec

/-- Exact rational pair modelling a JavaScript (IEEE-754) number.  The
denominator is kept as a `Nat`; values produced by the embedded code always
have a positive denominator. -/
structure JNum where
  n : Int
  d : Nat
deriving DecidableEq

/-- Embed an integer as a JS number. -/
def JNum.ofInt (i : Int) : JNum := ⟨i, 1⟩

/-- Embed a natural number as a JS number. -/
def JNum.ofNat (m : Nat) : JNum := ⟨(m : Int), 1⟩

/-- Addition of JS numbers (exact, unnormalised). -/
def JNum.add (a b : JNum) : JNum := ⟨a.n * (b.d : Int) + b.n * (a.d : Int), a.d * b.d⟩

/-- Division of JS numbers.  Division by zero never occurs on the executed
paths (the only division site is guarded by a non-empty-list check). -/
def JNum.div (a b : JNum) : JNum :=
  if b.n < 0 then ⟨-(a.n * (b.d : Int)), a.d * b.n.natAbs⟩
  else ⟨a.n * (b.d : Int), a.d * b.n.natAbs⟩

/-- Value equality of two JS numbers (cross multiplication), as used by
`===` / SameValueZero on numbers. -/
def JNum.valEq (a b : JNum) : Bool := a.n * (b.d : Int) == b.n * (a.d : Int)

/-- JavaScript `Math.round`: round half towards positive infinity,
`Math.round x = ⌊x + 1/2⌋`.  On a pair `n/d` with `d > 0` this is
`(2n + d) fdiv 2d`. -/
def jsRound (q : JNum) : Int := (2 * q.n + (q.d : Int)).fdiv (2 * (q.d : Int))

/-- JavaScript values, as produced by `JSON.parse` plus `undefined`. -/
inductive JsVal where
  | undefVal : JsVal
  | null : JsVal
  | bool : Bool → JsVal
  | num : JNum → JsVal
  | str : String → JsVal
  | arr : List JsVal → JsVal
  | obj : List (String × JsVal) → JsVal

/-- A value is nullish (`null` or `undefined`): property access on it throws. -/
def JsVal.nullish : JsVal → Bool
  | .undefVal => true
  | .null => true
  | _ => false

/-- JavaScript truthiness. -/
def truthy : JsVal → Bool
  | .undefVal => false
  | .null => false
  | .bool b => b
  | .num q => q.n != 0
  | .str s => s ≠ ""
  | .arr _ => true
  | .obj _ => true

/-- Field lookup on an object (first binding wins; objects built here have
unique keys).  Non-objects have none of the accessed data properties, so the
lookup yields `undefined` for them. -/
def getField (v : JsVal) (k : String) : JsVal :=
  match v with
  | .obj fields =>
    match fields.find? (fun kv => kv.fst == k) with
    | some kv => kv.snd
    | none => .undefVal
  | _ => .undefVal

/-- Property access `v.k`: throws a `TypeError` on nullish receivers. -/
def getProp (v : JsVal) (k : String) : Except String JsVal :=
  if v.nullish then .error ("TypeError: cannot read properties of " ++ k)
  else .ok (getField v k)

/-- Optional chaining `v?.k`: yields `undefined` instead of throwing. -/
def optChain (v : JsVal) (k : String) : JsVal :=
  if v.nullish then .undefVal else getField v k

/-- Whether a value is an array (`Array.isArray`). -/
def JsVal.isArr : JsVal → Bool
  | .arr _ => true
  | _ => false

/-- The element list of an array value (empty for non-arrays). -/
def JsVal.elems : JsVal → List JsVal
  | .arr xs => xs
  | _ => []

/-- View of a value as a string, when it is one. -/
def JsVal.asStr : JsVal → Option String
  | .str s => some s
  | _ => none

/-- SameValueZero equality, as used by `Map` keys and `Set` members.  Objects
and arrays compare by reference; all object/array values flowing into key
positions here originate from distinct parses or distinct literals, hence are
distinct references, so they are never equal to anything. -/
def jsKeyEq : JsVal → JsVal → Bool
  | .undefVal, .undefVal => true
  | .null, .null => true
  | .bool a, .bool b => a == b
  | .num a, .num b => JNum.valEq a b
  | .str a, .str b => a == b
  | _, _ => false

/-- Whitespace for `String.prototype.trim` and `Number(...)` trimming. -/
def isWs (c : Char) : Bool :=
  c == ' ' || c == '\t' || c == '\n' || c == '\r' || c == '\x0c' || c == '\x0b'

/-- Decimal digits of a string, as a number, if all characters are digits. -/
def digitsToNat : List Char → Option Nat
  | [] => none
  | cs => go cs 0
where
  go : List Char → Nat → Option Nat
    | [], acc => some acc
    | c :: rest, acc =>
      if c.isDigit then go rest (acc * 10 + (c.toNat - '0'.toNat)) else none

/-- Split a character list on a separator character, `String.prototype.split`
style (empty input yields one empty segment). -/
def splitOnChar (sep : Char) : List Char → List (List Char)
  | [] => [[]]
  | c :: rest =>
    if c = sep then [] :: splitOnChar sep rest
    else
      match splitOnChar sep rest with
      | h :: t => (c :: h) :: t
      | [] => [[c]]

/-- Parse the digit forms accepted after the optional sign by `Number(...)`:
`I`, `I.F`, `.F`, `I.` for decimal digits `I`, `F`.  (Hexadecimal, binary and
exponent forms are not modelled; no claim depends on them.) -/
def digitsToNum (cs : List Char) : Option JNum :=
  match splitOnChar '.' cs with
  | [intPart] => (digitsToNat intPart).map JNum.ofNat
  | [intPart, fracPart] =>
    if intPart = [] && fracPart = [] then none
    else
      let ip := if intPart = [] then some 0 else digitsToNat intPart
      let fp := if fracPart = [] then some 0 else digitsToNat fracPart
      match ip, fp with
      | some i, some f => some ⟨(i : Int) * (10 ^ fracPart.length : Nat) + (f : Int), 10 ^ fracPart.length⟩
      | _, _ => none
  | _ => none

/-- JavaScript `Number(string)` conversion. -/
def strToNum (s : String) : Option JNum :=
  let t := (s.data.dropWhile isWs).reverse.dropWhile isWs |>.reverse
  match t with
  | [] => some (JNum.ofNat 0)
  | '-' :: rest => (digitsToNum rest).map (fun q => ⟨-q.n, q.d⟩)
  | '+' :: rest => digitsToNum rest
  | _ => digitsToNum t

/-- JavaScript `Number(v)` conversion; `none` models `NaN`.  Conversion of
non-empty arrays and of plain objects is modelled as `NaN` (the embedded code
never relies on their exotic numeric coercions). -/
def jsToNumber : JsVal → Option JNum
  | .undefVal => none
  | .null => some (JNum.ofNat 0)
  | .bool b => some (JNum.ofNat (if b then 1 else 0))
  | .num q => some q
  | .str s => strToNum s
  | .arr [] => some (JNum.ofNat 0)
  | .arr (_ :: _) => none
  | .obj _ => none

/-- Render a JS number as a string.  Integral values render exactly as in
JavaScript; non-integral values use a fraction notation (a modelling
simplification: the embedded code only interpolates integral numbers). -/
def JNum.render (q : JNum) : String :=
  if q.n.emod (q.d : Int) == 0 then toString (q.n.fdiv (q.d : Int))
  else toString q.n ++ "/" ++ toString q.d

mutual

/-- JavaScript string conversion, as performed by template literals. -/
def jsToString : JsVal → String
  | .undefVal => "undefined"
  | .null => "null"
  | .bool b => if b then "true" else "false"
  | .num q => JNum.render q
  | .str s => s
  | .arr xs => jsToStringArr xs
  | .obj _ => "[object Object]"
termination_by structural v => v

/-- `Array.prototype.toString`: elements joined by commas, with nullish
elements rendering as the empty string. -/
def jsToStringArr : List JsVal → String
  | [] => ""
  | [x] => if x.nullish then "" else jsToString x
  | x :: rest => (if x.nullish then "" else jsToString x) ++ "," ++ jsToStringArr rest
termination_by structural l => l

end

/-! ## Environment: the file system, `JSON.parse` and `nanoid` inputs -/

/-- All external inputs of one `buildFleetGraph` invocation. -/
structure Env where
  /-- `GRAPH_NAMESPACE` (environment variable, default `"carhub"`). -/
  nspace : String
  /-- `CARHUB_ROOT`, the resolved root the source paths are joined onto. -/
  carhubRoot : String
  /-- `new Date().toISOString()` at build time. -/
  generatedAt : String
  /-- `readFileSafe(SOURCE_FILES.db)`: `none` models a missing or unreadable
  primary inventory file. -/
  dbRead : Option String
  /-- `readFileSafe(SOURCE_FILES.context)` (persona source text). -/
  contextRead : Option String
  /-- `readFileSafe(SOURCE_FILES.carsPage)` (UI source text). -/
  carsPageRead : Option String
  /-- `fs.existsSync(ASSETS_DIR)`. -/
  assetsDirExists : Bool
  /-- `fs.readdirSync(ASSETS_DIR)`. -/
  assetFiles : List String
  /-- `fs.existsSync(SERVICE_HUB_DATA)`. -/
  svcExists : Bool
  /-- `fs.readFileSync(SERVICE_HUB_DATA)` under the surrounding `try`:
  `none` models a read failure (caught). -/
  svcRead : Option String
  /-- The external `JSON.parse`: `Except.error` models a thrown `SyntaxError`. -/
  parse : String → Except String JsVal
  /-- Successive results of the external random `nanoid(len)` calls, in call
  order (the requested length argument is not modelled). -/
  nanoids : Nat → String

/-- `SOURCE_FILES.db = path.join(CARHUB_ROOT, "db.json")`. -/
def dbPath (env : Env) : String := env.carhubRoot ++ "/db.json"

/-- `SOURCE_FILES.context = path.join(CARHUB_ROOT, "UserInformationContext.js")`. -/
def contextPath (env : Env) : String := env.carhubRoot ++ "/UserInformationContext.js"

/-- `SOURCE_FILES.carsPage = path.join(CARHUB_ROOT, "Cars.js")`. -/
def carsPagePath (env : Env) : String := env.carhubRoot ++ "/Cars.js"

/-- `ASSETS_DIR = path.join(CARHUB_ROOT, "assets", "cars")`. -/
def assetsDir (env : Env) : String := env.carhubRoot ++ "/assets/cars"

/-! ## carhubClient.js -/

/-- Split the part of a filename before the last dot from the extension
(the suffix starting at the last `'.'`).  `none` when there is no dot. -/
def extSplit : List Char → Option (List Char × List Char)
  | [] => none
  | c :: rest =>
    match extSplit rest with
    | some (b, e) => some (c :: b, e)
    | none => if c = '.' then some ([], '.' :: rest) else none

/-- `path.extname` on a bare filename: the suffix from the last dot, or `""`
when there is no dot or the only dot is the leading character (dotfile). -/
def extname (s : String) : String :=
  match extSplit s.data with
  | some (b, e) => if b = [] then "" else ⟨e⟩
  | none => ""

/-- `path.basename(filename, path.extname(filename))` on a bare filename:
strips the extension computed by `extname`. -/
def baseNoExt (s : String) : String :=
  match extSplit s.data with
  | some (b, _) => if b = [] then s else ⟨b⟩
  | none => s

/-- Lower-case a string (`String.prototype.toLowerCase`, ASCII range). -/
def lowerStr (s : String) : String := ⟨s.data.map Char.toLower⟩

/-- The extension allow-list of `loadAssetsInventory`. -/
def imageExts : List String := [".png", ".jpg", ".jpeg", ".avif", ".webp"]

/-- The filter predicate of `loadAssetsInventory`:
`[".png", ".jpg", ".jpeg", ".avif", ".webp"].includes(path.extname(file).toLowerCase())`. -/
def isImageFile (file : String) : Bool := imageExts.contains (lowerStr (extname file))

/-- Result of `parseAssetName`. -/
structure AssetName where
  make : String
  model : String
  variant : String
deriving DecidableEq

/-- `parseAssetName(filename)`: split the extension-stripped base name on
`'-'`; segment 0 is the make (default `"unknown"`), segment 1 the model
(default `"vehicle"`), the remaining segments re-joined the variant
(default `"base"`).  `x || d` is JavaScript or-default: the default applies
to an absent segment and to the empty string alike. -/
def parseAssetName (filename : String) : AssetName :=
  let segments := splitOnChar '-' (baseNoExt filename).data
  let make := match segments.head? with
    | some s => if s = [] then "unknown" else ⟨s⟩
    | none => "unknown"
  let model := match segments.drop 1 |>.head? with
    | some s => if s = [] then "vehicle" else ⟨s⟩
    | none => "vehicle"
  let variantJoin := String.intercalate "-" ((segments.drop 2).map (fun l => (⟨l⟩ : String)))
  let variant := if variantJoin = "" then "base" else variantJoin
  ⟨make, model, variant⟩

/-- Separator class of `toTitle`: the regex `[-_ ]+`. -/
def isTitleSep (c : Char) : Bool := c == '-' || c == '_' || c == ' '

/-- Split on a character class, single-separator style (every separator
occurrence creates a boundary, so `k` consecutive separators yield `k - 1`
interior empty segments). -/
def splitOnClass (p : Char → Bool) : List Char → List (List Char)
  | [] => [[]]
  | c :: rest =>
    if p c then [] :: splitOnClass p rest
    else
      match splitOnClass p rest with
      | h :: t => (c :: h) :: t
      | [] => [[c]]

/-- Drop the empty segments that sit between two separator runs, keeping a
final empty segment (a run of separators at a boundary produces exactly one
split point under the `+`-quantified regex). -/
def squeezeEmpties : List (List Char) → List (List Char)
  | [] => []
  | [x] => [x]
  | x :: xs => if x = [] then squeezeEmpties xs else x :: squeezeEmpties xs

/-- Split on runs of `[-_ ]` characters (`value.split(/[-_ ]+/)`): the
single-character split with interior empty segments collapsed. -/
def splitSepRuns (cs : List Char) : List (List Char) :=
  match splitOnClass isTitleSep cs with
  | [] => []
  | [t] => [t]
  | t :: rest => t :: squeezeEmpties rest

/-- Capitalise one segment: `part.charAt(0).toUpperCase() + part.slice(1)`. -/
def capSeg : List Char → List Char
  | [] => []
  | c :: rest => c.toUpper :: rest

/-- `toTitle(value)`: split on `[-_ ]+`, capitalise each part, join by a
single space. -/
def toTitle (value : String) : String :=
  String.intercalate " " ((splitSepRuns value.data).map (fun l => (⟨capSeg l⟩ : String)))

/-- `charCodeAt(0)` (UTF-16 code unit of the first character; all strings the
embedded code feeds in are non-empty ASCII, where this is the code point). -/
def charCode0 (s : String) : Nat :=
  match s.data with
  | [] => 0
  | c :: _ => c.toNat

/-- `mockRangeFor(make, model) = 250 + (make.charCodeAt(0) + model.charCodeAt(0)) % 100`. -/
def mockRangeFor (make model : String) : Nat :=
  250 + (charCode0 make + charCode0 model) % 100

/-- `mockPrice(make) = Math.round((30000 + make.charCodeAt(0) * 500) / 100) * 100`. -/
def mockPrice (make : String) : Int :=
  jsRound (JNum.div (JNum.ofNat (30000 + charCode0 make * 500)) (JNum.ofNat 100)) * 100

/-- Substring containment at the head (`needle` begins `hay`). -/
def prefOf : List Char → List Char → Bool
  | [], _ => true
  | _ :: _, [] => false
  | a :: as, b :: bs => a == b && prefOf as bs

/-- `String.prototype.includes` (substring containment). -/
def hasSub (needle : List Char) : List Char → Bool
  | [] => prefOf needle []
  | c :: rest => prefOf needle (c :: rest) || hasSub needle rest

/-- `variant.includes(pat)` on strings. -/
def strIncludes (hay pat : String) : Bool := hasSub pat.data hay.data

/-- `mockBattery(variant)`: `"95 kWh"` for sport/performance variants,
`"70 kWh"` for camry/accord variants, `"80 kWh"` otherwise. -/
def mockBattery (variant : String) : String :=
  if strIncludes variant "sport" || strIncludes variant "performance" then "95 kWh"
  else if strIncludes variant "camry" || strIncludes variant "accord" then "70 kWh"
  else "80 kWh"

/-- The synthetic vehicle record derived from one asset filename (the body of
the `files.map` callback in `loadAssetsInventory`). -/
def syntheticVehicle (file : String) : JsVal :=
  let p := parseAssetName file
  .obj [
    ("id", .str (p.make ++ "-" ++ p.model ++ "-" ++ p.variant)),
    ("make", .str (toTitle p.make)),
    ("model", .str (toTitle p.model)),
    ("trim", .str (toTitle p.variant)),
    ("image", .str ("assets/cars/" ++ file)),
    ("range", .num (JNum.ofNat (mockRangeFor p.make p.model))),
    ("price", .num (JNum.ofInt (mockPrice p.make))),
    ("battery", .str (mockBattery p.variant))]

/-- `loadAssetsInventory()`: empty when the asset directory is missing,
otherwise the synthetic records of the image-extension files. -/
def loadAssetsInventory (env : Env) : List JsVal :=
  if !env.assetsDirExists then []
  else (env.assetFiles.filter isImageFile).map syntheticVehicle

/-- The vehicle list extracted from the primary `db.json` read: empty on a
missing/unreadable file or a `JSON.parse` failure; the `cars` field when it is
an array; the payload itself when it is a bare array; empty otherwise.  This
is the value of the local `vehicles` variable of `loadInventory` just before
its emptiness test. -/
def dbVehicles (env : Env) : List JsVal :=
  match env.dbRead with
  | none => []
  | some payload =>
    match env.parse payload with
    | .error _ => []
    | .ok json =>
      if (optChain json "cars").isArr then (optChain json "cars").elems
      else if json.isArr then json.elems
      else []

/-- Result of `loadInventory`. -/
structure Inventory where
  vehicles : List JsVal
  source : String

/-- `loadInventory()`: the primary vehicles when non-empty (with the primary
file as `source`), otherwise the synthetic asset inventory (with the asset
directory as `source`). -/
def loadInventory (env : Env) : Inventory :=
  let vehicles := dbVehicles env
  if vehicles.isEmpty then ⟨loadAssetsInventory env, assetsDir env⟩
  else ⟨vehicles, dbPath env⟩

/-! Persona extraction.  The source regex literal is
`/const\\s+defaultUser\\s*=\\s*({[\\s\\S]+?});/` — written with doubled
backslashes, so inside the regex each `\\` is an escaped literal backslash
character and the following `s`/`S` are literal letters.  The pattern
therefore matches: `const`, a backslash, one or more `s`, `defaultUser`, a
backslash, zero or more `s`, `=`, a backslash, zero or more `s`, then a
captured group of `{`, one or more characters from the class
backslash/`s`/`S` (lazily), `}`, followed by `;`. -/

/-- Consume a literal character. -/
def eatChar (c : Char) : List Char → Option (List Char)
  | x :: xs => if x = c then some xs else none
  | [] => none

/-- Consume a literal word. -/
def eatWord : List Char → List Char → Option (List Char)
  | [], cs => some cs
  | w :: ws, cs => (eatChar w cs).bind (eatWord ws)

/-- Membership in the character class `[\\sS]` of the (double-escaped) regex:
a literal backslash, `s`, or `S`. -/
def inBsClass (c : Char) : Bool := c == '\\' || c == 's' || c == 'S'

/-- Attempt the persona regex at the current position; on success, return the
captured group text and the rest of the input. -/
def personaTryAt (cs : List Char) : Option (List Char) := do
  let c1 ← eatWord "const".data cs
  let c2 ← eatChar '\\' c1
  let c3 ← eatChar 's' c2
  let c4 := c3.dropWhile (fun c => c == 's')
  let c5 ← eatWord "defaultUser".data c4
  let c6 ← eatChar '\\' c5
  let c7 := c6.dropWhile (fun c => c == 's')
  let c8 ← eatChar '=' c7
  let c9 ← eatChar '\\' c8
  let c10 := c9.dropWhile (fun c => c == 's')
  let c11 ← eatChar '{' c10
  let run := c11.takeWhile inBsClass
  let rest := c11.dropWhile inBsClass
  if run = [] then none
  else do
    let rest1 ← eatChar '}' rest
    let _ ← eatChar ';' rest1
    return '{' :: run ++ ['}']

/-- Leftmost match of the persona regex over the whole text
(`String.prototype.match` semantics for the capture group). -/
def personaScan : List Char → Option (List Char)
  | [] => personaTryAt []
  | c :: rest =>
    match personaTryAt (c :: rest) with
    | some cap => some cap
    | none => personaScan rest

/-- `String.prototype.trim`. -/
def trimStr (s : String) : String :=
  ⟨(s.data.dropWhile isWs).reverse.dropWhile isWs |>.reverse⟩

/-- Result of `loadPersonaMetadata`. -/
structure Persona where
  persona : Option String
  source : String

/-- `loadPersonaMetadata()`: `persona` is the trimmed capture of the (broken,
double-escaped) regex, or `null` when the file is unreadable or the pattern
does not occur. -/
def loadPersonaMetadata (env : Env) : Persona :=
  match env.contextRead with
  | none => ⟨none, contextPath env⟩
  | some content =>
    ⟨(personaScan content.data).map (fun cap => trimStr ⟨cap⟩), contextPath env⟩

/-- Is an ASCII uppercase letter (`[A-Z]`). -/
def isUpperAZ (c : Char) : Bool := 'A' ≤ c && c ≤ 'Z'

/-- Is in the regex class `[A-Za-z0-9]`. -/
def isAlnumAZ (c : Char) : Bool :=
  ('A' ≤ c && c ≤ 'Z') || ('a' ≤ c && c ≤ 'z') || ('0' ≤ c && c ≤ '9')

/-- All matches of `/<([A-Z][A-Za-z0-9]+)/g` with the leading `<` removed,
left to right.  The scan restarts one character after each match attempt; this
agrees with the non-overlapping `g`-flag scan because a match never contains a
second `<` that could start another match. -/
def scanComponents : List Char → List String
  | [] => []
  | '<' :: rest =>
    match rest with
    | c :: rest1 =>
      if isUpperAZ c then
        let run := rest1.takeWhile isAlnumAZ
        if run = [] then scanComponents rest
        else (⟨c :: run⟩ : String) :: scanComponents rest
      else scanComponents rest
    | [] => []
  | _ :: rest => scanComponents rest

/-- Order-preserving deduplication of strings (`[...new Set(list)]`). -/
def dedupStrings (l : List String) : List String := go [] l
where
  go (seen : List String) : List String → List String
    | [] => []
    | x :: xs => if seen.contains x then go seen xs else x :: go (x :: seen) xs

/-- Result of `listReferencedComponents`. -/
structure Components where
  components : List String
  source : String

/-- `listReferencedComponents()`: the deduplicated `<UppercaseIdentifier`
matches of the UI source text, empty on read failure. -/
def listReferencedComponents (env : Env) : Components :=
  match env.carsPageRead with
  | none => ⟨[], carsPagePath env⟩
  | some content => ⟨dedupStrings (scanComponents content.data), carsPagePath env⟩

/-- `getCarhubRoot()`. -/
def getCarhubRoot (env : Env) : String := env.carhubRoot

/-! ## fleetAggregator.js -/

/-- Result of `summarizeVehicles`. -/
structure Summary where
  total : Nat
  avgRange : Int
  trims : List JsVal

/-- The running sum of `vehicles.reduce((sum, car) => sum + (Number(car.range) || 0), 0)`.
A zero or `NaN` conversion result is replaced by the literal `0`. -/
def sumRanges (acc : JNum) : List JsVal → Except String JNum
  | [] => .ok acc
  | car :: rest =>
    match getProp car "range" with
    | .error e => .error e
    | .ok r =>
      let contrib := match jsToNumber r with
        | some q => if q.n == 0 then JNum.ofNat 0 else q
        | none => JNum.ofNat 0
      sumRanges (JNum.add acc contrib) rest

/-- `Set.prototype.add` on the insertion-ordered member list. -/
def jsSetAdd (set : List JsVal) (x : JsVal) : List JsVal :=
  if set.any (fun y => jsKeyEq y x) then set else set ++ [x]

/-- The running set of `vehicles.reduce((set, car) => set.add(car.trim || "standard"), new Set())`. -/
def trimsSet (set : List JsVal) : List JsVal → Except String (List JsVal)
  | [] => .ok set
  | car :: rest =>
    match getProp car "trim" with
    | .error e => .error e
    | .ok t =>
      let val := if truthy t then t else .str "standard"
      trimsSet (jsSetAdd set val) rest

/-- `summarizeVehicles(vehicles)`. -/
def summarizeVehicles (vehicles : List JsVal) : Except String Summary :=
  if vehicles.isEmpty then .ok ⟨0, 0, []⟩
  else
    match sumRanges (JNum.ofNat 0) vehicles with
    | .error e => .error e
    | .ok totalRange =>
      match trimsSet [] vehicles with
      | .error e => .error e
      | .ok trims =>
        .ok ⟨vehicles.length,
             jsRound (JNum.div totalRange (JNum.ofNat vehicles.length)),
             trims⟩

/-- The payload allow-list of `pickVehicleFields`. -/
def allowedFields : List String :=
  ["id", "make", "model", "trim", "range", "price", "battery", "image"]

/-- The reduce of `pickVehicleFields` on a non-nullish vehicle: copy each
allow-listed field whose value is not `undefined`, in allow-list order. -/
def pickGo (vehicle : JsVal) : List String → List (String × JsVal)
  | [] => []
  | f :: rest =>
    match getField vehicle f with
    | .undefVal => pickGo vehicle rest
    | v => (f, v) :: pickGo vehicle rest

/-- `pickVehicleFields(vehicle)`: its `vehicle[field]` accesses throw exactly
when `vehicle` is nullish, so the fallible part is one nullish test. -/
def pickVehicleFields (vehicle : JsVal) : Except String (List (String × JsVal)) :=
  if vehicle.nullish then .error "TypeError: cannot read properties"
  else .ok (pickGo vehicle allowedFields)

/-- Graph node.  `label` and the type-specific remaining fields are kept
next to the claim-relevant `id` and `type`. -/
structure Node where
  id : String
  type : String
  label : String
  fields : List (String × JsVal)

/-- Graph edge.  The source's `from`/`to` keys are spelled `fromId`/`toId`
(`from` is reserved in Lean). -/
structure Edge where
  id : String
  fromId : String
  toId : String
  relation : String

/-- Graph metadata.  The source's `namespace` key is spelled `nspace`. -/
structure Metadata where
  nspace : String
  carhubRoot : String
  generatedAt : String

/-- The graph object returned by `buildFleetGraph`. -/
structure Graph where
  nodes : List Node
  edges : List Edge
  metadata : Metadata

/-- The `stats` object stored on the root node. -/
def statsToJs (s : Summary) : JsVal :=
  .obj [("total", .num (JNum.ofNat s.total)),
        ("avgRange", .num (JNum.ofInt s.avgRange)),
        ("trims", .arr s.trims)]

/-- `Map.prototype.get` on the insertion-ordered entry list. -/
def mapGet (m : List (JsVal × String)) (k : JsVal) : Option String :=
  match m.find? (fun kv => jsKeyEq kv.fst k) with
  | some kv => some kv.snd
  | none => none

/-- `Map.prototype.set`: overwrite the value of an existing key in place,
otherwise append a new entry. -/
def mapSet (m : List (JsVal × String)) (k : JsVal) (v : String) : List (JsVal × String) :=
  if m.any (fun kv => jsKeyEq kv.fst k) then
    m.map (fun kv => if jsKeyEq kv.fst k then (kv.fst, v) else kv)
  else m ++ [(k, v)]

/-- Accumulated result of the vehicle `forEach` loop of `buildFleetGraph`. -/
structure VehiclePass where
  nodes : List Node
  edges : List Edge
  vmap : List (JsVal × String)
  nanoidIdx : Nat

/-- The `inventory.vehicles.forEach` loop: per vehicle, push a `Vehicle` node
(node id `{ns}:vehicle:{vehicle.id || nanoid(4)}`), register the vehicle in
the lookup map when `vehicle.id` is truthy, and push a `PART_OF` edge to the
root.  `k` indexes the next unconsumed `nanoid` draw. -/
def processVehicles (nspace source : String) (nanoids : Nat → String)
    (fleetNodeId : String) :
    Nat → List (JsVal × String) → List JsVal → Except String VehiclePass
  | k, vmap, [] => .ok ⟨[], [], vmap, k⟩
  | k, vmap, vehicle :: rest =>
    match getProp vehicle "id" with
    | .error e => .error e
    | .ok idv =>
      -- `vehicle.make`, `vehicle.model` and the `pickVehicleFields` accesses
      -- succeed as well, since `vehicle` was just seen to be non-nullish.
      let disc := if truthy idv then jsToString idv else nanoids k
      let k1 := if truthy idv then k else k + 1
      let vehicleNodeId := nspace ++ ":vehicle:" ++ disc
      let node : Node :=
        ⟨vehicleNodeId, "Vehicle",
         jsToString (getField vehicle "make") ++ " " ++
           jsToString (getField vehicle "model"),
         [("payload", .obj (pickGo vehicle allowedFields)),
          ("source", .str source)]⟩
      let vmap1 := if truthy idv then mapSet vmap idv vehicleNodeId else vmap
      let edge : Edge :=
        ⟨vehicleNodeId ++ "->inventory", vehicleNodeId, fleetNodeId, "PART_OF"⟩
      match processVehicles nspace source nanoids fleetNodeId k1 vmap1 rest with
      | .error e => .error e
      | .ok tail =>
        .ok ⟨node :: tail.nodes, edge :: tail.edges, tail.vmap, tail.nanoidIdx⟩

/-- `loadServicePackages()`: empty on a missing artifact, a failed read
(caught) or a `JSON.parse` failure, else the `packages` field when it is an
array. -/
def loadServicePackages (env : Env) : List JsVal :=
  if !env.svcExists then []
  else
    match env.svcRead with
    | none => []
    | some payload =>
      match env.parse payload with
      | .error _ => []
      | .ok json =>
        if (optChain json "packages").isArr then (optChain json "packages").elems
        else []

/-- The context object handed to `integrateServicePackages`. -/
structure SvcContext where
  fleetNodeId : String
  uiNodeId : Option String
  vehicleNodeMap : List (JsVal × String)

/-- The fields of one `ServicePackage` push, read off the package record
once the (sole fallible) property accesses have succeeded. -/
def svcParts (nspace : String) (ctx : SvcContext) (pkg : JsVal) : Node × List Edge :=
  let nodeId := nspace ++ ":service:" ++ jsToString (getField pkg "id")
  let node : Node :=
    ⟨nodeId, "ServicePackage",
     jsToString (getField pkg "package") ++ " (" ++
       jsToString (getField pkg "vehicleId") ++ ")",
     [("price", getField pkg "price"), ("cadence", getField pkg "cadence"),
      ("workshop", getField pkg "workshop"),
      ("dependencies", getField pkg "dependencies"),
      ("source", getField pkg "source")]⟩
  let servicesEdges : List Edge :=
    match mapGet ctx.vehicleNodeMap (getField pkg "vehicleId") with
    | some vehicleNodeId =>
      [⟨nodeId ++ "->" ++ vehicleNodeId, nodeId, vehicleNodeId, "SERVICES"⟩]
    | none => []
  let surfacesEdges : List Edge :=
    match ctx.uiNodeId with
    | some u => [⟨nodeId ++ "->ui", nodeId, u, "SURFACES_IN"⟩]
    | none => []
  let alignEdge : Edge := ⟨nodeId ++ "->fleet", nodeId, ctx.fleetNodeId, "ALIGN_WITH"⟩
  (node, servicesEdges ++ surfacesEdges ++ [alignEdge])

/-- One iteration of the `packages.forEach` loop: the `ServicePackage` node
and the `SERVICES` / `SURFACES_IN` / `ALIGN_WITH` edges it pushes.  All
property accesses throw exactly when `pkg` is nullish, so the fallible part
is factored into one `getProp`-style nullish test. -/
def svcNodeEdges (nspace : String) (ctx : SvcContext) (pkg : JsVal) :
    Except String (Node × List Edge) :=
  match getProp pkg "id" with
  | .error e => .error e
  | .ok _ => .ok (svcParts nspace ctx pkg)

/-- `integrateServicePackages(graph, context)`: process every loaded package
in order. -/
def integrateServicePackages (nspace : String) (ctx : SvcContext) :
    List JsVal → Except String (List Node × List Edge)
  | [] => .ok ([], [])
  | pkg :: rest =>
    match svcNodeEdges nspace ctx pkg with
    | .error e => .error e
    | .ok part =>
      match integrateServicePackages nspace ctx rest with
      | .error e => .error e
      | .ok tail => .ok (part.1 :: tail.1, part.2 ++ tail.2)

/-- `const fleetNodeId = <backtick>${GRAPH_NAMESPACE}:fleet:${nanoid(6)}<backtick>`:
the root node id, consuming the first `nanoid` draw of the build. -/
def fleetNodeIdOf (env : Env) : String := env.nspace ++ ":fleet:" ++ env.nanoids 0

/-- The root `FleetInventory` node pushed first by `buildFleetGraph`. -/
def fleetNodeOf (env : Env) (stats : Summary) : Node :=
  ⟨fleetNodeIdOf env, "FleetInventory", "MyCarHub Inventory",
   [("source", .str (loadInventory env).source), ("stats", statsToJs stats)]⟩

/-- The guard `if (persona.persona)`: a non-null, non-empty snippet. -/
def personaOnOf (env : Env) : Bool :=
  match (loadPersonaMetadata env).persona with
  | some s => s != ""
  | none => false

/-- The `Persona` node/edge block of `buildFleetGraph`; `k` is the index of
the next unconsumed `nanoid` draw, returned (incremented on use) as the third
component. -/
def personaPartOf (env : Env) (k : Nat) : List Node × List Edge × Nat :=
  if personaOnOf env then
    let personaNodeId := env.nspace ++ ":persona:" ++ env.nanoids k
    ([⟨personaNodeId, "Persona", "Default User Persona",
       [("source", .str (loadPersonaMetadata env).source),
        ("personaSnippet", .str ((loadPersonaMetadata env).persona.getD ""))]⟩],
     [⟨personaNodeId ++ "->fleet", personaNodeId, fleetNodeIdOf env, "TARGETS"⟩],
     k + 1)
  else ([], [], k)

/-- The `UIComponentSet` node/edge block of `buildFleetGraph`; the third
component is the final value of the `uiNodeId` variable. -/
def uiPartOf (env : Env) (k : Nat) : List Node × List Edge × Option String :=
  if (listReferencedComponents env).components.length > 0 then
    let uiNodeId := env.nspace ++ ":ui:" ++ env.nanoids k
    ([⟨uiNodeId, "UIComponentSet", "Cars.js Component Tree",
       [("components", .arr ((listReferencedComponents env).components.map JsVal.str)),
        ("source", .str (listReferencedComponents env).source)]⟩],
     [⟨uiNodeId ++ "->fleet", uiNodeId, fleetNodeIdOf env, "VISUALIZES"⟩],
     some uiNodeId)
  else ([], [], none)

/-- `buildFleetGraph()`.  The loaders are pure, so the source's single
up-front `loadInventory()` / `loadPersonaMetadata()` /
`listReferencedComponents()` calls are written as repeated applications
inside the named blocks above. -/
def buildFleetGraph (env : Env) : Except String Graph :=
  match summarizeVehicles (loadInventory env).vehicles with
  | .error e => .error e
  | .ok stats =>
    match processVehicles env.nspace (loadInventory env).source env.nanoids
        (fleetNodeIdOf env) 1 [] (loadInventory env).vehicles with
    | .error e => .error e
    | .ok vp =>
      let pp := personaPartOf env vp.nanoidIdx
      let up := uiPartOf env pp.2.2
      match integrateServicePackages env.nspace
          ⟨fleetNodeIdOf env, up.2.2, vp.vmap⟩ (loadServicePackages env) with
      | .error e => .error e
      | .ok svcPart =>
        .ok ⟨fleetNodeOf env stats :: vp.nodes ++ pp.1 ++ up.1 ++ svcPart.1,
             vp.edges ++ pp.2.1 ++ up.2.1 ++ svcPart.2,
             ⟨env.nspace, env.carhubRoot, env.generatedAt⟩⟩

/-- The id of the `ServicePackage` node created for one package record,
`{namespace}:service:{pkg.id}`. -/
def svcNodeIdOf (env : Env) (pkg : JsVal) : String :=
  env.nspace ++ ":service:" ++ jsToString (getField pkg "id")

/-- The context object `buildFleetGraph` hands to
`integrateServicePackages`, given the completed vehicle pass. -/
def svcCtxOf (env : Env) (vp : VehiclePass) : SvcContext :=
  ⟨fleetNodeIdOf env,
   (uiPartOf env (personaPartOf env vp.nanoidIdx).2.2).2.2, vp.vmap⟩

/-! ## Specification-side definitions

These restate parts of the specification's wording, to be compared with the
functions embedded from the source. -/

/-- One vehicle's contribution to the range sum:
`Number(car.range) || 0` — a missing or non-numeric range contributes `0`. -/
def rangeContrib (car : JsVal) : JNum :=
  match jsToNumber (getField car "range") with
  | some q => if q.n == 0 then JNum.ofNat 0 else q
  | none => JNum.ofNat 0

/-- One vehicle's trim value, defaulting a falsy trim to `"standard"`. -/
def trimOf (car : JsVal) : JsVal :=
  if truthy (getField car "trim") then getField car "trim" else .str "standard"

/-- Left sum of a list of JS numbers starting at `0`. -/
def sumList (l : List JNum) : JNum := l.foldl JNum.add (JNum.ofNat 0)

/-- Order-preserving deduplication (SameValueZero), keeping first
occurrences, relative to the values already `seen`. -/
def dedupSeen (seen : List JsVal) : List JsVal → List JsVal
  | [] => []
  | x :: xs =>
    if seen.any (fun y => jsKeyEq y x) then dedupSeen seen xs
    else x :: dedupSeen (seen ++ [x]) xs

/-! ## Concrete test environments -/

/-- A minimal environment: every upstream source absent. -/
def baseEnv : Env := {
  nspace := "carhub"
  carhubRoot := "/repo/mycarhub/src"
  generatedAt := "2026-01-01T00:00:00.000Z"
  dbRead := none
  contextRead := none
  carsPageRead := none
  assetsDirExists := false
  assetFiles := []
  svcExists := false
  svcRead := none
  parse := fun _ => .error "SyntaxError: Unexpected token"
  nanoids := fun n => "n" ++ toString n }

/-- Primary inventory whose `cars` array contains a `null` element. -/
def envNullVehicle : Env := { baseEnv with
  dbRead := some "dbjson"
  parse := fun _ => .ok (.obj [("cars", .arr [.null])]) }

/-- A well-formed single-vehicle inventory plus a service-package artifact
that fails to parse. -/
def envOneVehicle : Env := { baseEnv with
  dbRead := some "dbjson"
  svcExists := true
  svcRead := some "svcjson"
  parse := fun s =>
    if s = "dbjson" then
      .ok (.obj [("cars", .arr [.obj [("id", .str "v1"), ("make", .str "Kia"),
        ("model", .str "EV6"), ("range", .num ⟨310, 1⟩)]])])
    else .error "SyntaxError: Unexpected token" }

/-- Two inventory vehicles sharing the id `"v1"`. -/
def envDupVehicleIds : Env := { baseEnv with
  dbRead := some "dbjson"
  parse := fun _ => .ok (.obj [("cars", .arr [
    .obj [("id", .str "v1"), ("make", .str "Kia")],
    .obj [("id", .str "v1"), ("make", .str "Tata")]])]) }

/-- An empty primary inventory and two asset files whose base names agree,
differing only in the extension. -/
def envDupAssetBase : Env := { baseEnv with
  assetsDirExists := true
  assetFiles := ["falcon.png", "falcon.jpg"] }

/-- Two service packages sharing the id `"p1"`, no vehicles. -/
def envDupPkgIds : Env := { baseEnv with
  svcExists := true
  svcRead := some "svcjson"
  parse := fun _ => .ok (.obj [("packages", .arr [
    .obj [("id", .str "p1"), ("vehicleId", .str "x")],
    .obj [("id", .str "p1"), ("vehicleId", .str "y")]])]) }

/-- One vehicle and two service packages: one referencing the vehicle, one
referencing an unknown vehicle id; plus a UI source with one component. -/
def envSvcMix : Env := { baseEnv with
  dbRead := some "dbjson"
  carsPageRead := some "<CarCard x={y}/>"
  svcExists := true
  svcRead := some "svcjson"
  parse := fun s =>
    if s = "dbjson" then
      .ok (.obj [("cars", .arr [.obj [("id", .str "v1"), ("make", .str "Kia")]])])
    else
      .ok (.obj [("packages", .arr [
        .obj [("id", .str "p1"), ("vehicleId", .str "v1")],
        .obj [("id", .str "p2"), ("vehicleId", .str "ghost")]])]) }

/-- Unreadable primary inventory, one asset image file. -/
def envAssetsOnly : Env := { baseEnv with
  assetsDirExists := true
  assetFiles := ["toyota-camry-sport.png", "README.txt"] }

/-- A persona source text containing an ordinary
`const defaultUser = { ... };` assignment. -/
def envPersonaText : Env := { baseEnv with
  contextRead := some "const defaultUser = \x7b name: \"John Doe\" \x7d;" }

/-! ## General lemmas -/

theorem data_append (s t : String) : (s ++ t).data = s.data ++ t.data := rfl

theorem string_data_inj {s t : String} (h : s.data = t.data) : s = t := by
  cases s
  cases t
  exact congrArg String.mk h

theorem append_left_cancel {a x y : String} (h : a ++ x = a ++ y) : x = y := by
  have h1 : a.data ++ x.data = a.data ++ y.data := by
    have h2 := congrArg String.data h
    simpa [data_append] using h2
  exact string_data_inj (List.append_cancel_left h1)

/-- Two namespaced node ids with different type tags differ, whatever the
namespace and discriminators: the tags start `':' :: c` with distinct `c`. -/
theorem tag_ne {ns x y t u : String} {a b : Char} {ts us : List Char}
    (ht : t.data = ':' :: a :: ts) (hu : u.data = ':' :: b :: us) (hab : a ≠ b) :
    (ns ++ t) ++ x ≠ (ns ++ u) ++ y := by
  intro h
  have hd := congrArg String.data h
  simp only [data_append, List.append_assoc] at hd
  have h2 := List.append_cancel_left hd
  rw [ht, hu] at h2
  simp only [List.cons_append, List.cons.injEq] at h2
  exact hab h2.2.1

theorem getProp_ok {v : JsVal} (h : v.nullish = false) (k : String) :
    getProp v k = .ok (getField v k) := by
  simp [getProp, h]

theorem getProp_eq_ok {v : JsVal} {k : String} {x : JsVal}
    (h : getProp v k = .ok x) : v.nullish = false ∧ x = getField v k := by
  by_cases hn : v.nullish = true
  · simp [getProp, hn] at h
  · simp only [Bool.not_eq_true] at hn
    refine ⟨hn, ?_⟩
    rw [getProp_ok hn] at h
    exact (Except.ok.injEq _ _ ▸ h).symm

/-! ## Shape lemmas for the graph parts -/

theorem processVehicles_shape (ns src : String) (nan : Nat → String) (fid : String) :
    ∀ (l : List JsVal) (k : Nat) (m : List (JsVal × String)) (out : VehiclePass),
      processVehicles ns src nan fid k m l = .ok out →
      (out.edges = out.nodes.map
        (fun n => ⟨n.id ++ "->inventory", n.id, fid, "PART_OF"⟩)) ∧
      (∀ n ∈ out.nodes, n.type = "Vehicle" ∧ ∃ d, n.id = (ns ++ ":vehicle:") ++ d) := by
  intro l
  induction l with
  | nil =>
    intro k m out h
    simp only [processVehicles] at h
    cases h
    exact ⟨rfl, by simp⟩
  | cons v rest ih =>
    intro k m out h
    simp only [processVehicles] at h
    split at h
    · cases h
    · split at h
      · cases h
      · next tail heq =>
        cases h
        obtain ⟨ihe, ihn⟩ := ih _ _ _ heq
        constructor
        · simp only [List.map_cons, ihe]
        · intro n hn
          rcases List.mem_cons.mp hn with h1 | h1
          · subst h1
            exact ⟨rfl, _, rfl⟩
          · exact ihn n h1

theorem personaPartOf_cases (env : Env) (k : Nat) :
    personaPartOf env k = ([], [], k) ∨
    ∃ pn : Node,
      personaPartOf env k =
        ([pn], [⟨pn.id ++ "->fleet", pn.id, fleetNodeIdOf env, "TARGETS"⟩], k + 1) ∧
      pn.type = "Persona" ∧ ∃ d, pn.id = (env.nspace ++ ":persona:") ++ d := by
  by_cases h : personaOnOf env = true
  · right
    refine ⟨⟨env.nspace ++ ":persona:" ++ env.nanoids k, "Persona",
      "Default User Persona",
      [("source", .str (loadPersonaMetadata env).source),
       ("personaSnippet", .str ((loadPersonaMetadata env).persona.getD ""))]⟩,
      ?_, rfl, env.nanoids k, rfl⟩
    simp [personaPartOf, h]
  · left
    simp only [Bool.not_eq_true] at h
    simp [personaPartOf, h]

theorem uiPartOf_cases (env : Env) (k : Nat) :
    uiPartOf env k = ([], [], none) ∨
    ∃ un : Node,
      uiPartOf env k =
        ([un], [⟨un.id ++ "->fleet", un.id, fleetNodeIdOf env, "VISUALIZES"⟩], some un.id) ∧
      un.type = "UIComponentSet" ∧ ∃ d, un.id = (env.nspace ++ ":ui:") ++ d := by
  by_cases h : (listReferencedComponents env).components.length > 0
  · right
    refine ⟨⟨env.nspace ++ ":ui:" ++ env.nanoids k, "UIComponentSet",
      "Cars.js Component Tree",
      [("components", .arr ((listReferencedComponents env).components.map JsVal.str)),
       ("source", .str (listReferencedComponents env).source)]⟩,
      ?_, rfl, env.nanoids k, rfl⟩
    simp [uiPartOf, h]
  · left
    simp [uiPartOf, h]

theorem svcParts_shape (ns : String) (ctx : SvcContext) (pkg : JsVal) :
    (svcParts ns ctx pkg).1.type = "ServicePackage" ∧
    (∃ d, (svcParts ns ctx pkg).1.id = (ns ++ ":service:") ++ d) ∧
    (∀ e ∈ (svcParts ns ctx pkg).2,
      e.fromId = (svcParts ns ctx pkg).1.id ∧
      (e.relation = "SERVICES" ∨ e.relation = "SURFACES_IN" ∨
        e.relation = "ALIGN_WITH")) := by
  refine ⟨rfl, ⟨_, rfl⟩, ?_⟩
  intro e he
  simp only [svcParts, List.mem_append, List.mem_singleton] at he
  rcases he with (he | he) | he
  · cases hg : mapGet ctx.vehicleNodeMap (getField pkg "vehicleId") with
    | none => rw [hg] at he; cases he
    | some vid =>
      rw [hg] at he
      rcases List.mem_singleton.mp he with rfl
      exact ⟨rfl, Or.inl rfl⟩
  · cases hu : ctx.uiNodeId with
    | none => rw [hu] at he; cases he
    | some u =>
      rw [hu] at he
      rcases List.mem_singleton.mp he with rfl
      exact ⟨rfl, Or.inr (Or.inl rfl)⟩
  · subst he
    exact ⟨rfl, Or.inr (Or.inr rfl)⟩

theorem svcNodeEdges_ok {ns : String} {ctx : SvcContext} {pkg : JsVal}
    {part : Node × List Edge} (h : svcNodeEdges ns ctx pkg = .ok part) :
    part = svcParts ns ctx pkg := by
  simp only [svcNodeEdges] at h
  split at h
  · cases h
  · cases h
    rfl

theorem integrate_shape (ns : String) (ctx : SvcContext) :
    ∀ (pkgs : List JsVal) (out : List Node × List Edge),
      integrateServicePackages ns ctx pkgs = .ok out →
      (∀ n ∈ out.1, n.type = "ServicePackage" ∧
        ∃ d, n.id = (ns ++ ":service:") ++ d) ∧
      (∀ e ∈ out.2,
        (e.relation = "SERVICES" ∨ e.relation = "SURFACES_IN" ∨
          e.relation = "ALIGN_WITH") ∧
        ∃ d, e.fromId = (ns ++ ":service:") ++ d) := by
  intro pkgs
  induction pkgs with
  | nil =>
    intro out h
    simp only [integrateServicePackages] at h
    cases h
    exact ⟨by simp, by simp⟩
  | cons pkg rest ih =>
    intro out h
    simp only [integrateServicePackages] at h
    split at h
    · cases h
    · next part heqpart =>
      split at h
      · cases h
      · next tail heq =>
        cases h
        obtain rfl := svcNodeEdges_ok heqpart
        obtain ⟨ihn, ihe⟩ := ih _ heq
        obtain ⟨ht, ⟨d0, hd0⟩, hes⟩ := svcParts_shape ns ctx pkg
        constructor
        · intro n hn
          rcases List.mem_cons.mp hn with h1 | h1
          · subst h1; exact ⟨ht, d0, hd0⟩
          · exact ihn n h1
        · intro e he
          rcases List.mem_append.mp he with h1 | h1
          · obtain ⟨hf, hr⟩ := hes e h1
            exact ⟨hr, d0, hf ▸ hd0⟩
          · exact ihe e h1

/-- Decomposition of a successful `buildFleetGraph` run into its parts. -/
theorem build_parts {env : Env} {g : Graph} (h : buildFleetGraph env = .ok g) :
    ∃ stats vp sp,
      summarizeVehicles (loadInventory env).vehicles = .ok stats ∧
      processVehicles env.nspace (loadInventory env).source env.nanoids
        (fleetNodeIdOf env) 1 [] (loadInventory env).vehicles = .ok vp ∧
      integrateServicePackages env.nspace
        ⟨fleetNodeIdOf env,
         (uiPartOf env (personaPartOf env vp.nanoidIdx).2.2).2.2, vp.vmap⟩
        (loadServicePackages env) = .ok sp ∧
      g.nodes = fleetNodeOf env stats :: vp.nodes ++
        (personaPartOf env vp.nanoidIdx).1 ++
        (uiPartOf env (personaPartOf env vp.nanoidIdx).2.2).1 ++ sp.1 ∧
      g.edges = vp.edges ++ (personaPartOf env vp.nanoidIdx).2.1 ++
        (uiPartOf env (personaPartOf env vp.nanoidIdx).2.2).2.1 ++ sp.2 := by
  simp only [buildFleetGraph] at h
  split at h
  · cases h
  · next stats hs =>
    split at h
    · cases h
    · next vp hv =>
      split at h
      · cases h
      · next sp hi =>
        cases h
        exact ⟨stats, vp, sp, hs, hv, hi, rfl, rfl⟩

/-! ## Filter and counting helpers -/

theorem filter_nil_of_none {α : Type} (p : α → Bool) :
    ∀ l : List α, (∀ x ∈ l, p x = false) → l.filter p = []
  | [], _ => rfl
  | x :: rest, h => by
    have hx := h x (by simp)
    simp only [List.filter, hx]
    exact filter_nil_of_none p rest (fun y hy => h y (by simp [hy]))

theorem length_filter_eq_one_of_nodup {α : Type} (f : α → String) :
    ∀ (l : List α) (a : α), a ∈ l → ((l.map f).Nodup) →
      (l.filter (fun x => f x == f a)).length = 1
  | [], a, ha, _ => absurd ha (by simp)
  | x :: rest, a, ha, hn => by
    have hn1 : (rest.map f).Nodup := (List.nodup_cons.mp hn).2
    have hfx : f x ∉ rest.map f := (List.nodup_cons.mp hn).1
    rcases List.mem_cons.mp ha with rfl | hmem
    · have hz : rest.filter (fun y => f y == f a) = [] := by
        refine filter_nil_of_none _ rest (fun y hy => ?_)
        have : f y ≠ f a := by
          intro hEq
          exact hfx (hEq ▸ List.mem_map_of_mem f hy)
        simpa using this
      rw [List.filter_cons, hz]
      simp
    · have hne : f x ≠ f a := by
        intro hEq
        exact hfx (hEq ▸ List.mem_map_of_mem f hmem)
      have ih := length_filter_eq_one_of_nodup f rest a hmem hn1
      have hb : (f x == f a) = false := by simpa using hne
      rw [List.filter_cons, hb]
      simpa using ih

/-- Every node of a successfully built graph falls in one of the five groups. -/
theorem node_mem_decomp {env : Env} {g : Graph} {stats : Summary}
    {vp : VehiclePass} {sp : List Node × List Edge}
    (hnodes : g.nodes = fleetNodeOf env stats :: vp.nodes ++
      (personaPartOf env vp.nanoidIdx).1 ++
      (uiPartOf env (personaPartOf env vp.nanoidIdx).2.2).1 ++ sp.1)
    {n : Node} (hn : n ∈ g.nodes) :
    n = fleetNodeOf env stats ∨ n ∈ vp.nodes ∨
    n ∈ (personaPartOf env vp.nanoidIdx).1 ∨
    n ∈ (uiPartOf env (personaPartOf env vp.nanoidIdx).2.2).1 ∨ n ∈ sp.1 := by
  rw [hnodes] at hn
  simpa [List.mem_cons, List.mem_append, or_assoc] using hn

theorem personaPart_nodes (env : Env) (k : Nat) :
    ∀ n ∈ (personaPartOf env k).1,
      n.type = "Persona" ∧ ∃ d, n.id = (env.nspace ++ ":persona:") ++ d := by
  intro n hn
  rcases personaPartOf_cases env k with hpp | ⟨pn, hpp, hpt, d, hpid⟩ <;> rw [hpp] at hn
  · cases hn
  · rcases List.mem_singleton.mp hn with rfl
    exact ⟨hpt, d, hpid⟩

theorem personaPart_edges (env : Env) (k : Nat) :
    ∀ e ∈ (personaPartOf env k).2.1,
      e.relation = "TARGETS" ∧ e.toId = fleetNodeIdOf env ∧
      ∃ d, e.fromId = (env.nspace ++ ":persona:") ++ d := by
  intro e he
  rcases personaPartOf_cases env k with hpp | ⟨pn, hpp, hpt, d, hpid⟩ <;> rw [hpp] at he
  · cases he
  · rcases List.mem_singleton.mp he with rfl
    exact ⟨rfl, rfl, d, hpid⟩

theorem uiPart_nodes (env : Env) (k : Nat) :
    ∀ n ∈ (uiPartOf env k).1,
      n.type = "UIComponentSet" ∧ ∃ d, n.id = (env.nspace ++ ":ui:") ++ d := by
  intro n hn
  rcases uiPartOf_cases env k with hup | ⟨un, hup, hut, d, huid⟩ <;> rw [hup] at hn
  · cases hn
  · rcases List.mem_singleton.mp hn with rfl
    exact ⟨hut, d, huid⟩

theorem uiPart_edges (env : Env) (k : Nat) :
    ∀ e ∈ (uiPartOf env k).2.1,
      e.relation = "VISUALIZES" ∧ e.toId = fleetNodeIdOf env ∧
      ∃ d, e.fromId = (env.nspace ++ ":ui:") ++ d := by
  intro e he
  rcases uiPartOf_cases env k with hup | ⟨un, hup, hut, d, huid⟩ <;> rw [hup] at he
  · cases he
  · rcases List.mem_singleton.mp he with rfl
    exact ⟨rfl, rfl, d, huid⟩

/-- A node of type `"FleetInventory"` in a built graph must be the root. -/
theorem root_id_eq {env : Env} {g : Graph} {stats : Summary}
    {vp : VehiclePass} {sp : List Node × List Edge}
    (hnodes : g.nodes = fleetNodeOf env stats :: vp.nodes ++
      (personaPartOf env vp.nanoidIdx).1 ++
      (uiPartOf env (personaPartOf env vp.nanoidIdx).2.2).1 ++ sp.1)
    (hv : processVehicles env.nspace (loadInventory env).source env.nanoids
      (fleetNodeIdOf env) 1 [] (loadInventory env).vehicles = .ok vp)
    (hi : integrateServicePackages env.nspace
      ⟨fleetNodeIdOf env,
       (uiPartOf env (personaPartOf env vp.nanoidIdx).2.2).2.2, vp.vmap⟩
      (loadServicePackages env) = .ok sp)
    {root : Node} (hmem : root ∈ g.nodes)
    (htype : root.type = "FleetInventory") : root.id = fleetNodeIdOf env := by
  rcases node_mem_decomp hnodes hmem with h1 | h1 | h1 | h1 | h1
  · rw [h1]; rfl
  · have := ((processVehicles_shape _ _ _ _ _ _ _ _ hv).2 root h1).1
    rw [this] at htype
    exact absurd htype (by decide)
  · have := (personaPart_nodes env vp.nanoidIdx root h1).1
    rw [this] at htype
    exact absurd htype (by decide)
  · have := (uiPart_nodes env _ root h1).1
    rw [this] at htype
    exact absurd htype (by decide)
  · have := ((integrate_shape _ _ _ _ hi).1 root h1).1
    rw [this] at htype
    exact absurd htype (by decide)

theorem edge_false_of_rel {e : Edge} {s t x : String} (hrel : e.relation = s)
    (hne : (s == t) = false) :
    (e.fromId == x && e.relation == t) = false := by
  rw [hrel]
  simp [hne]

/-- Claim C2, amended: in every successfully built graph there is exactly one
`FleetInventory` node; and provided the `Vehicle` node ids are pairwise
distinct, every `Vehicle` node has exactly one outgoing `PART_OF` edge, and
every `PART_OF` edge targets the unique `FleetInventory` node's id. -/
theorem vehicle_partOf_unique (env : Env) (g : Graph)
    (hbuild : buildFleetGraph env = .ok g) :
    (g.nodes.filter (fun n => n.type == "FleetInventory")).length = 1 ∧
    (((g.nodes.filter (fun n => n.type == "Vehicle")).map Node.id).Nodup →
      ∀ root ∈ g.nodes, root.type = "FleetInventory" →
        ∀ v ∈ g.nodes, v.type = "Vehicle" →
          (g.edges.filter
            (fun e => e.fromId == v.id && e.relation == "PART_OF")).length = 1 ∧
          ∀ e ∈ g.edges, e.relation = "PART_OF" → e.toId = root.id) := by
  obtain ⟨stats, vp, sp, hs, hv, hi, hnodes, hedges⟩ := build_parts hbuild
  obtain ⟨hed, hvn⟩ := processVehicles_shape _ _ _ _ _ _ _ _ hv
  obtain ⟨hin, hie⟩ := integrate_shape _ _ _ _ hi
  -- filtering the node groups by type
  have hfleetV : ((fleetNodeOf env stats).type == "Vehicle") = false := rfl
  have hfleetF : ((fleetNodeOf env stats).type == "FleetInventory") = true := rfl
  have hvehV : vp.nodes.filter (fun n => n.type == "Vehicle") = vp.nodes :=
    List.filter_eq_self.mpr (fun n hn => by simp [(hvn n hn).1])
  have hvehF : vp.nodes.filter (fun n => n.type == "FleetInventory") = [] :=
    filter_nil_of_none _ _ (fun n hn => by simp [(hvn n hn).1])
  have hppV : (personaPartOf env vp.nanoidIdx).1.filter
      (fun n => n.type == "Vehicle") = [] :=
    filter_nil_of_none _ _
      (fun n hn => by simp [(personaPart_nodes env _ n hn).1])
  have hppF : (personaPartOf env vp.nanoidIdx).1.filter
      (fun n => n.type == "FleetInventory") = [] :=
    filter_nil_of_none _ _
      (fun n hn => by simp [(personaPart_nodes env _ n hn).1])
  have hupV : (uiPartOf env (personaPartOf env vp.nanoidIdx).2.2).1.filter
      (fun n => n.type == "Vehicle") = [] :=
    filter_nil_of_none _ _
      (fun n hn => by simp [(uiPart_nodes env _ n hn).1])
  have hupF : (uiPartOf env (personaPartOf env vp.nanoidIdx).2.2).1.filter
      (fun n => n.type == "FleetInventory") = [] :=
    filter_nil_of_none _ _
      (fun n hn => by simp [(uiPart_nodes env _ n hn).1])
  have hspV : sp.1.filter (fun n => n.type == "Vehicle") = [] :=
    filter_nil_of_none _ _ (fun n hn => by simp [(hin n hn).1])
  have hspF : sp.1.filter (fun n => n.type == "FleetInventory") = [] :=
    filter_nil_of_none _ _ (fun n hn => by simp [(hin n hn).1])
  have hVfilter : g.nodes.filter (fun n => n.type == "Vehicle") = vp.nodes := by
    rw [hnodes]
    simp [List.filter_append, List.filter_cons, hfleetV, hvehV, hppV, hupV, hspV]
  constructor
  · rw [hnodes]
    simp [List.filter_append, List.filter_cons, hfleetF, hvehF, hppF, hupF, hspF]
  · intro hnodup root hrootmem hroottype v hvmem hvtype
    have hrootid : root.id = fleetNodeIdOf env :=
      root_id_eq hnodes hv hi hrootmem hroottype
    have hvmem2 : v ∈ vp.nodes := by
      rcases node_mem_decomp hnodes hvmem with h1 | h1 | h1 | h1 | h1
      · rw [h1] at hvtype
        simp [fleetNodeOf] at hvtype
      · exact h1
      · have := (personaPart_nodes env _ v h1).1
        rw [this] at hvtype
        exact absurd hvtype (by decide)
      · have := (uiPart_nodes env _ v h1).1
        rw [this] at hvtype
        exact absurd hvtype (by decide)
      · have := (hin v h1).1
        rw [this] at hvtype
        exact absurd hvtype (by decide)
    rw [hVfilter] at hnodup
    constructor
    · -- exactly one outgoing PART_OF edge
      have hppE : (personaPartOf env vp.nanoidIdx).2.1.filter
          (fun e => e.fromId == v.id && e.relation == "PART_OF") = [] :=
        filter_nil_of_none _ _ (fun e he =>
          edge_false_of_rel (personaPart_edges env _ e he).1 rfl)
      have hupE : (uiPartOf env (personaPartOf env vp.nanoidIdx).2.2).2.1.filter
          (fun e => e.fromId == v.id && e.relation == "PART_OF") = [] :=
        filter_nil_of_none _ _ (fun e he =>
          edge_false_of_rel (uiPart_edges env _ e he).1 rfl)
      have hspE : sp.2.filter
          (fun e => e.fromId == v.id && e.relation == "PART_OF") = [] :=
        filter_nil_of_none _ _ (fun e he => by
          rcases (hie e he).1 with hr | hr | hr
          · exact edge_false_of_rel hr rfl
          · exact edge_false_of_rel hr rfl
          · exact edge_false_of_rel hr rfl)
      have hvpE : vp.edges.filter
          (fun e => e.fromId == v.id && e.relation == "PART_OF") =
          (vp.nodes.filter (fun n => n.id == v.id)).map
            (fun n => ⟨n.id ++ "->inventory", n.id, fleetNodeIdOf env,
              "PART_OF"⟩) := by
        rw [hed, List.filter_map]
        have : ∀ n ∈ vp.nodes,
            ((fun e : Edge => e.fromId == v.id && e.relation == "PART_OF") ∘
              (fun n : Node => (⟨n.id ++ "->inventory", n.id, fleetNodeIdOf env,
                "PART_OF"⟩ : Edge))) n = (n.id == v.id) := by
          intro n _
          simp
        rw [List.filter_congr this]
      rw [hedges]
      simp only [List.filter_append, hppE, hupE, hspE, hvpE, List.append_nil,
        List.length_map]
      exact length_filter_eq_one_of_nodup Node.id vp.nodes v hvmem2 hnodup
    · -- every PART_OF edge goes to the root
      intro e hemem herel
      rw [hedges] at hemem
      simp only [List.mem_append] at hemem
      rcases hemem with ((h1 | h1) | h1) | h1
      · rw [hed] at h1
        obtain ⟨n, _, rfl⟩ := List.mem_map.mp h1
        rw [hrootid]
      · rw [(personaPart_edges env _ e h1).1] at herel
        exact absurd herel (by decide)
      · rw [(uiPart_edges env _ e h1).1] at herel
        exact absurd herel (by decide)
      · rcases (hie e h1).1 with hr | hr | hr <;> rw [hr] at herel <;>
          exact absurd herel (by decide)

/-- Witness for claim C2's amended theorem at a concrete single-vehicle
environment. -/
theorem vehicle_partOf_unique_witness :
    ∃ g, buildFleetGraph envOneVehicle = Except.ok g ∧
      (g.nodes.filter (fun n => n.type == "FleetInventory")).length = 1 ∧
      ∀ root ∈ g.nodes, root.type = "FleetInventory" →
        ∀ v ∈ g.nodes, v.type = "Vehicle" →
          (g.edges.filter
            (fun e => e.fromId == v.id && e.relation == "PART_OF")).length = 1 := by
  refine ⟨_, rfl, (vehicle_partOf_unique envOneVehicle _ rfl).1, ?_⟩
  intro root hr hrt v hv hvt
  exact ((vehicle_partOf_unique envOneVehicle _ rfl).2 (by decide)
    root hr hrt v hv hvt).1

/-- Counterexample to claim C2 as stated: with two inventory vehicles sharing
the id `"v1"`, the build succeeds but a `Vehicle` node has two outgoing
`PART_OF` edges, not exactly one. -/
theorem vehicle_partOf_dup_cex :
    ∃ g, buildFleetGraph envDupVehicleIds = Except.ok g ∧
      ∃ v ∈ g.nodes, v.type = "Vehicle" ∧
        (g.edges.filter
          (fun e => e.fromId == v.id && e.relation == "PART_OF")).length = 2 :=
  ⟨_, rfl, by decide⟩

/-- Under the standard decomposition, filtering the nodes to type
`"Vehicle"` yields exactly the vehicle pass's nodes. -/
theorem vehicleNodes_filter {env : Env} {g : Graph} {stats : Summary}
    {vp : VehiclePass} {sp : List Node × List Edge}
    (hnodes : g.nodes = fleetNodeOf env stats :: vp.nodes ++
      (personaPartOf env vp.nanoidIdx).1 ++
      (uiPartOf env (personaPartOf env vp.nanoidIdx).2.2).1 ++ sp.1)
    (hv : processVehicles env.nspace (loadInventory env).source env.nanoids
      (fleetNodeIdOf env) 1 [] (loadInventory env).vehicles = .ok vp)
    (hi : integrateServicePackages env.nspace
      ⟨fleetNodeIdOf env,
       (uiPartOf env (personaPartOf env vp.nanoidIdx).2.2).2.2, vp.vmap⟩
      (loadServicePackages env) = .ok sp) :
    g.nodes.filter (fun n => n.type == "Vehicle") = vp.nodes := by
  obtain ⟨_, hvn⟩ := processVehicles_shape _ _ _ _ _ _ _ _ hv
  obtain ⟨hin, _⟩ := integrate_shape _ _ _ _ hi
  rw [hnodes]
  have h1 : vp.nodes.filter (fun n => n.type == "Vehicle") = vp.nodes :=
    List.filter_eq_self.mpr (fun n hn => by simp [(hvn n hn).1])
  have h2 : (personaPartOf env vp.nanoidIdx).1.filter
      (fun n => n.type == "Vehicle") = [] :=
    filter_nil_of_none _ _
      (fun n hn => by simp [(personaPart_nodes env _ n hn).1])
  have h3 : (uiPartOf env (personaPartOf env vp.nanoidIdx).2.2).1.filter
      (fun n => n.type == "Vehicle") = [] :=
    filter_nil_of_none _ _ (fun n hn => by simp [(uiPart_nodes env _ n hn).1])
  have h4 : sp.1.filter (fun n => n.type == "Vehicle") = [] :=
    filter_nil_of_none _ _ (fun n hn => by simp [(hin n hn).1])
  have h0 : ((fleetNodeOf env stats).type == "Vehicle") = false := rfl
  simp [List.filter_append, List.filter_cons, h0, h1, h2, h3, h4]

/-- Under the standard decomposition, filtering the nodes to type
`"ServicePackage"` yields exactly the service-package nodes. -/
theorem serviceNodes_filter {env : Env} {g : Graph} {stats : Summary}
    {vp : VehiclePass} {sp : List Node × List Edge}
    (hnodes : g.nodes = fleetNodeOf env stats :: vp.nodes ++
      (personaPartOf env vp.nanoidIdx).1 ++
      (uiPartOf env (personaPartOf env vp.nanoidIdx).2.2).1 ++ sp.1)
    (hv : processVehicles env.nspace (loadInventory env).source env.nanoids
      (fleetNodeIdOf env) 1 [] (loadInventory env).vehicles = .ok vp)
    (hi : integrateServicePackages env.nspace
      ⟨fleetNodeIdOf env,
       (uiPartOf env (personaPartOf env vp.nanoidIdx).2.2).2.2, vp.vmap⟩
      (loadServicePackages env) = .ok sp) :
    g.nodes.filter (fun n => n.type == "ServicePackage") = sp.1 := by
  obtain ⟨_, hvn⟩ := processVehicles_shape _ _ _ _ _ _ _ _ hv
  obtain ⟨hin, _⟩ := integrate_shape _ _ _ _ hi
  rw [hnodes]
  have h1 : vp.nodes.filter (fun n => n.type == "ServicePackage") = [] :=
    filter_nil_of_none _ _ (fun n hn => by simp [(hvn n hn).1])
  have h2 : (personaPartOf env vp.nanoidIdx).1.filter
      (fun n => n.type == "ServicePackage") = [] :=
    filter_nil_of_none _ _
      (fun n hn => by simp [(personaPart_nodes env _ n hn).1])
  have h3 : (uiPartOf env (personaPartOf env vp.nanoidIdx).2.2).1.filter
      (fun n => n.type == "ServicePackage") = [] :=
    filter_nil_of_none _ _ (fun n hn => by simp [(uiPart_nodes env _ n hn).1])
  have h4 : sp.1.filter (fun n => n.type == "ServicePackage") = sp.1 :=
    List.filter_eq_self.mpr (fun n hn => by simp [(hin n hn).1])
  have h0 : ((fleetNodeOf env stats).type == "ServicePackage") = false := rfl
  simp [List.filter_append, List.filter_cons, h0, h1, h2, h3, h4]

/-- Lists of namespaced ids with distinct tags are disjoint. -/
theorem disjoint_of_tags {A B : List String} {ns tA tB : String} {a b : Char}
    {ta tb : List Char}
    (hA : ∀ x ∈ A, ∃ d, x = (ns ++ tA) ++ d)
    (hB : ∀ x ∈ B, ∃ d, x = (ns ++ tB) ++ d)
    (htA : tA.data = ':' :: a :: ta) (htB : tB.data = ':' :: b :: tb)
    (hab : a ≠ b) : A.Disjoint B := by
  intro x hxA hxB
  obtain ⟨d1, rfl⟩ := hA x hxA
  obtain ⟨d2, heq⟩ := hB _ hxB
  exact tag_ne htA htB hab heq

/-- A namespaced id with one tag never lies in a list of ids with another. -/
theorem not_mem_of_tags {B : List String} {ns tA tB x : String} {a b : Char}
    {ta tb : List Char}
    (hB : ∀ y ∈ B, ∃ d, y = (ns ++ tB) ++ d)
    (htA : tA.data = ':' :: a :: ta) (htB : tB.data = ':' :: b :: tb)
    (hab : a ≠ b) : (ns ++ tA) ++ x ∉ B := by
  intro hmem
  obtain ⟨d2, heq⟩ := hB _ hmem
  exact tag_ne htA htB hab heq

/-- Claim C3, amended: node ids in a built graph are pairwise distinct
provided the `Vehicle` node ids are pairwise distinct and the
`ServicePackage` node ids are pairwise distinct (ids of distinct node types
can never collide, their `{namespace}:{type}:` prefixes differing in the
type tag). -/
theorem nodeIds_nodup (env : Env) (g : Graph)
    (hbuild : buildFleetGraph env = .ok g)
    (hveh : ((g.nodes.filter (fun n => n.type == "Vehicle")).map Node.id).Nodup)
    (hsvc : ((g.nodes.filter
      (fun n => n.type == "ServicePackage")).map Node.id).Nodup) :
    (g.nodes.map Node.id).Nodup := by
  obtain ⟨stats, vp, sp, hs, hv, hi, hnodes, hedges⟩ := build_parts hbuild
  obtain ⟨_, hvn⟩ := processVehicles_shape _ _ _ _ _ _ _ _ hv
  obtain ⟨hin, _⟩ := integrate_shape _ _ _ _ hi
  rw [vehicleNodes_filter hnodes hv hi] at hveh
  rw [serviceNodes_filter hnodes hv hi] at hsvc
  -- id-form facts for each group
  have hVids : ∀ x ∈ vp.nodes.map Node.id,
      ∃ d, x = (env.nspace ++ ":vehicle:") ++ d := by
    intro x hx
    obtain ⟨n, hn, rfl⟩ := List.mem_map.mp hx
    exact (hvn n hn).2
  have hPids : ∀ x ∈ (personaPartOf env vp.nanoidIdx).1.map Node.id,
      ∃ d, x = (env.nspace ++ ":persona:") ++ d := by
    intro x hx
    obtain ⟨n, hn, rfl⟩ := List.mem_map.mp hx
    exact (personaPart_nodes env _ n hn).2
  have hUids : ∀ x ∈ (uiPartOf env (personaPartOf env vp.nanoidIdx).2.2).1.map
      Node.id, ∃ d, x = (env.nspace ++ ":ui:") ++ d := by
    intro x hx
    obtain ⟨n, hn, rfl⟩ := List.mem_map.mp hx
    exact (uiPart_nodes env _ n hn).2
  have hSids : ∀ x ∈ sp.1.map Node.id,
      ∃ d, x = (env.nspace ++ ":service:") ++ d := by
    intro x hx
    obtain ⟨n, hn, rfl⟩ := List.mem_map.mp hx
    exact (hin n hn).2
  have hPnodup : ((personaPartOf env vp.nanoidIdx).1.map Node.id).Nodup := by
    rcases personaPartOf_cases env vp.nanoidIdx with hpp | ⟨pn, hpp, _⟩ <;>
      rw [hpp] <;> simp
  have hUnodup : ((uiPartOf env (personaPartOf env vp.nanoidIdx).2.2).1.map
      Node.id).Nodup := by
    rcases uiPartOf_cases env (personaPartOf env vp.nanoidIdx).2.2 with
      hup | ⟨un, hup, _⟩ <;> rw [hup] <;> simp
  have hfid : (fleetNodeOf env stats).id =
      (env.nspace ++ ":fleet:") ++ env.nanoids 0 := rfl
  rw [hnodes]
  simp only [List.map_append, List.map_cons]
  rw [List.append_assoc, List.append_assoc]
  refine List.nodup_append.mpr ⟨?_, ?_, ?_⟩
  · exact List.nodup_cons.mpr
      ⟨by rw [hfid]; exact not_mem_of_tags hVids rfl rfl (by decide), hveh⟩
  · refine List.nodup_append.mpr ⟨hPnodup, ?_, ?_⟩
    · exact List.nodup_append.mpr
        ⟨hUnodup, hsvc, disjoint_of_tags hUids hSids rfl rfl (by decide)⟩
    · rw [List.disjoint_append_right]
      exact ⟨disjoint_of_tags hPids hUids rfl rfl (by decide),
        disjoint_of_tags hPids hSids rfl rfl (by decide)⟩
  · rw [List.disjoint_append_right, List.disjoint_append_right]
    refine ⟨?_, ?_, ?_⟩
    · rw [List.disjoint_cons_left]
      exact ⟨by rw [hfid]; exact not_mem_of_tags hPids rfl rfl (by decide),
        disjoint_of_tags hVids hPids rfl rfl (by decide)⟩
    · rw [List.disjoint_cons_left]
      exact ⟨by rw [hfid]; exact not_mem_of_tags hUids rfl rfl (by decide),
        disjoint_of_tags hVids hUids rfl rfl (by decide)⟩
    · rw [List.disjoint_cons_left]
      exact ⟨by rw [hfid]; exact not_mem_of_tags hSids rfl rfl (by decide),
        disjoint_of_tags hVids hSids rfl rfl (by decide)⟩

/-- Witness for claim C3's amended theorem at a concrete environment with a
vehicle, a UI component set and two service packages. -/
theorem nodeIds_nodup_witness :
    ∃ g, buildFleetGraph envSvcMix = Except.ok g ∧
      (g.nodes.map Node.id).Nodup :=
  ⟨_, rfl, nodeIds_nodup envSvcMix _ rfl (by decide) (by decide)⟩

/-- Counterexample to claim C3 as stated: two asset filenames with the same
base name and different image extensions (`falcon.png`, `falcon.jpg`) yield
two synthetic vehicles with the same id, hence two graph nodes with the same
id. -/
theorem nodeIds_dup_cex :
    ∃ g, buildFleetGraph envDupAssetBase = Except.ok g ∧
      ¬ (g.nodes.map Node.id).Nodup :=
  ⟨_, rfl, by decide⟩

/-! ## Summarization lemmas -/

theorem sumRanges_ok (l : List JsVal) :
    ∀ acc, (∀ v ∈ l, v.nullish = false) →
      sumRanges acc l =
        .ok (l.foldl (fun a c => JNum.add a (rangeContrib c)) acc) := by
  induction l with
  | nil => intro acc _; rfl
  | cons car rest ih =>
    intro acc h
    have hcar : car.nullish = false := h car (by simp)
    simp only [sumRanges, getProp, hcar, Bool.false_eq_true, if_false,
      List.foldl_cons]
    exact ih _ (fun v hv => h v (by simp [hv]))

theorem trimsSet_ok (l : List JsVal) :
    ∀ set, (∀ v ∈ l, v.nullish = false) →
      trimsSet set l = .ok (l.foldl (fun s c => jsSetAdd s (trimOf c)) set) := by
  induction l with
  | nil => intro set _; rfl
  | cons car rest ih =>
    intro set h
    have hcar : car.nullish = false := h car (by simp)
    simp only [trimsSet, getProp, hcar, Bool.false_eq_true, if_false,
      List.foldl_cons]
    exact ih _ (fun v hv => h v (by simp [hv]))

theorem foldl_jsSetAdd (l : List JsVal) :
    ∀ set, List.foldl jsSetAdd set l = set ++ dedupSeen set l := by
  induction l with
  | nil => intro set; simp [dedupSeen]
  | cons x xs ih =>
    intro set
    simp only [List.foldl_cons, dedupSeen]
    by_cases hx : set.any (fun y => jsKeyEq y x) = true
    · have hset : jsSetAdd set x = set := by simp [jsSetAdd, hx]
      rw [hset, hx]
      simpa using ih set
    · have hx2 : set.any (fun y => jsKeyEq y x) = false :=
        Bool.not_eq_true _ ▸ hx
      have hset : jsSetAdd set x = set ++ [x] := by simp [jsSetAdd, hx2]
      rw [hset, hx2, ih (set ++ [x])]
      simp

theorem summarizeVehicles_ok (l : List JsVal) (hne : l ≠ [])
    (h : ∀ v ∈ l, v.nullish = false) :
    summarizeVehicles l = .ok ⟨l.length,
      jsRound (JNum.div (sumList (l.map rangeContrib)) (JNum.ofNat l.length)),
      dedupSeen [] (l.map trimOf)⟩ := by
  have hemp : l.isEmpty = false := by
    cases l with
    | nil => exact absurd rfl hne
    | cons a as => rfl
  have hsum : sumList (l.map rangeContrib) =
      l.foldl (fun a c => JNum.add a (rangeContrib c)) (JNum.ofNat 0) := by
    simp [sumList, List.foldl_map]
  have htrims : dedupSeen [] (l.map trimOf) =
      l.foldl (fun s c => jsSetAdd s (trimOf c)) [] := by
    rw [show l.foldl (fun s c => jsSetAdd s (trimOf c)) [] =
        List.foldl jsSetAdd [] (l.map trimOf) from (List.foldl_map _ _ _ _).symm,
      foldl_jsSetAdd]
    simp
  simp only [summarizeVehicles, hemp, Bool.false_eq_true, if_false,
    sumRanges_ok l _ h, trimsSet_ok l _ h, hsum, htrims]

/-! ## Vehicle-map lemmas -/

theorem mapGet_none_of_any_false (x : JsVal) :
    ∀ m : List (JsVal × String),
      m.any (fun kv => jsKeyEq kv.fst x) = false → mapGet m x = none := by
  intro m hm
  induction m with
  | nil => rfl
  | cons kv rest ih =>
    simp only [List.any_cons, Bool.or_eq_false_iff] at hm
    simp only [mapGet, List.find?, hm.1]
    have := ih hm.2
    simpa [mapGet] using this

theorem mapGet_append_key (x : JsVal) (v : String) (hx : jsKeyEq x x = true) :
    ∀ m : List (JsVal × String), (mapGet (m ++ [(x, v)]) x).isSome = true := by
  intro m
  induction m with
  | nil => simp [mapGet, List.find?, hx]
  | cons kv rest ih =>
    by_cases hkv : jsKeyEq kv.fst x = true
    · simp [mapGet, List.find?, hkv]
    · have hkv2 : jsKeyEq kv.fst x = false := Bool.not_eq_true _ ▸ hkv
      simpa [mapGet, List.find?, hkv2] using ih

theorem mapGet_map_upd (x : JsVal) (v : String) :
    ∀ m : List (JsVal × String), m.any (fun kv => jsKeyEq kv.fst x) = true →
      (mapGet (m.map (fun kv =>
        if jsKeyEq kv.fst x then (kv.fst, v) else kv)) x).isSome = true := by
  intro m
  induction m with
  | nil => intro h; cases h
  | cons kv rest ih =>
    intro h
    by_cases hkv : jsKeyEq kv.fst x = true
    · simp [mapGet, List.find?, hkv]
    · have hkv2 : jsKeyEq kv.fst x = false := Bool.not_eq_true _ ▸ hkv
      simp only [List.any_cons, hkv2, Bool.false_or] at h
      simpa [mapGet, List.map_cons, List.find?, hkv2] using ih h

theorem mapGet_mapSet_key (x : JsVal) (v : String) (hx : jsKeyEq x x = true)
    (m : List (JsVal × String)) : (mapGet (mapSet m x v) x).isSome = true := by
  by_cases hany : m.any (fun kv => jsKeyEq kv.fst x) = true
  · simp only [mapSet, hany, if_true]
    exact mapGet_map_upd x v m hany
  · have hany2 : m.any (fun kv => jsKeyEq kv.fst x) = false :=
      Bool.not_eq_true _ ▸ hany
    simp only [mapSet, hany2, Bool.false_eq_true, if_false]
    exact mapGet_append_key x v hx m

theorem mapGet_mono_append (x : JsVal) (l2 : List (JsVal × String)) :
    ∀ m : List (JsVal × String), (mapGet m x).isSome = true →
      (mapGet (m ++ l2) x).isSome = true := by
  intro m
  induction m with
  | nil =>
    intro h
    have h0 : (mapGet ([] : List (JsVal × String)) x).isSome = false := rfl
    rw [h0] at h
    cases h
  | cons kv rest ih =>
    intro h
    by_cases hkv : jsKeyEq kv.fst x = true
    · simp [mapGet, List.find?, hkv]
    · have hkv2 : jsKeyEq kv.fst x = false := Bool.not_eq_true _ ▸ hkv
      have hh : (mapGet rest x).isSome = true := by
        simpa [mapGet, List.find?, hkv2] using h
      simpa [mapGet, List.find?, hkv2, List.cons_append] using ih hh

theorem mapGet_mono_upd (x k : JsVal) (v : String) :
    ∀ m : List (JsVal × String), (mapGet m x).isSome = true →
      (mapGet (m.map (fun kv =>
        if jsKeyEq kv.fst k then (kv.fst, v) else kv)) x).isSome = true := by
  intro m
  induction m with
  | nil =>
    intro h
    have h0 : (mapGet ([] : List (JsVal × String)) x).isSome = false := rfl
    rw [h0] at h
    cases h
  | cons kv rest ih =>
    intro h
    by_cases hkv : jsKeyEq kv.fst x = true
    · by_cases hk : jsKeyEq kv.fst k = true
      · simp [mapGet, List.map_cons, List.find?, hk, hkv]
      · have hk2 : jsKeyEq kv.fst k = false := Bool.not_eq_true _ ▸ hk
        simp [mapGet, List.map_cons, List.find?, hk2, hkv]
    · have hkv2 : jsKeyEq kv.fst x = false := Bool.not_eq_true _ ▸ hkv
      simp only [mapGet, List.find?, hkv2] at h
      by_cases hk : jsKeyEq kv.fst k = true
      · simp only [List.map_cons, hk, if_true]
        simpa [mapGet, List.find?, hkv2] using ih (by simpa [mapGet] using h)
      · have hk2 : jsKeyEq kv.fst k = false := Bool.not_eq_true _ ▸ hk
        simp only [List.map_cons, hk2, Bool.false_eq_true, if_false]
        simpa [mapGet, List.find?, hkv2] using ih (by simpa [mapGet] using h)

theorem mapGet_mono_mapSet (x k : JsVal) (v : String)
    (m : List (JsVal × String)) (h : (mapGet m x).isSome = true) :
    (mapGet (mapSet m k v) x).isSome = true := by
  by_cases hany : m.any (fun kv => jsKeyEq kv.fst k) = true
  · simp only [mapSet, hany, if_true]
    exact mapGet_mono_upd x k v m h
  · have hany2 : m.any (fun kv => jsKeyEq kv.fst k) = false :=
      Bool.not_eq_true _ ▸ hany
    simp only [mapSet, hany2, Bool.false_eq_true, if_false]
    exact mapGet_mono_append x [(k, v)] m h

theorem processVehicles_vmap_mono (ns src : String) (nan : Nat → String)
    (fid : String) :
    ∀ (l : List JsVal) (k : Nat) (m : List (JsVal × String)) (out : VehiclePass),
      processVehicles ns src nan fid k m l = .ok out →
      ∀ x, (mapGet m x).isSome = true → (mapGet out.vmap x).isSome = true := by
  intro l
  induction l with
  | nil =>
    intro k m out h x hx
    simp only [processVehicles] at h
    cases h
    exact hx
  | cons v rest ih =>
    intro k m out h x hx
    simp only [processVehicles] at h
    split at h
    · cases h
    · next idv hid =>
      split at h
      · cases h
      · next tail heq =>
        cases h
        apply ih _ _ _ heq x
        by_cases ht : truthy idv = true
        · simp only [ht, if_true]
          exact mapGet_mono_mapSet x idv _ m hx
        · have ht2 : truthy idv = false := Bool.not_eq_true _ ▸ ht
          simpa [ht2] using hx

theorem processVehicles_registers (ns src : String) (nan : Nat → String)
    (fid : String) :
    ∀ (l : List JsVal) (k : Nat) (m : List (JsVal × String)) (out : VehiclePass),
      processVehicles ns src nan fid k m l = .ok out →
      ∀ v ∈ l, ∀ s, getField v "id" = .str s → s ≠ "" →
        (mapGet out.vmap (.str s)).isSome = true := by
  intro l
  induction l with
  | nil =>
    intro k m out h v hv
    cases hv
  | cons v0 rest ih =>
    intro k m out h v hv s hid hs
    simp only [processVehicles] at h
    split at h
    · cases h
    · next idv hidv =>
      split at h
      · cases h
      · next tail heq =>
        cases h
        rcases List.mem_cons.mp hv with rfl | hmem
        · obtain ⟨hnn, hidv2⟩ := getProp_eq_ok hidv
          rw [hid] at hidv2
          subst hidv2
          have ht : truthy (JsVal.str s) = true := by
            simp [truthy, hs]
          apply processVehicles_vmap_mono ns src nan fid rest _ _ _ heq
          simp only [ht, if_true]
          exact mapGet_mapSet_key _ _ (by simp [jsKeyEq]) m
        · exact ih _ _ _ heq v hmem s hid hs

theorem processVehicles_ok (ns src : String) (nan : Nat → String)
    (fid : String) :
    ∀ (l : List JsVal) (k : Nat) (m : List (JsVal × String)),
      (∀ v ∈ l, v.nullish = false) →
      ∃ out, processVehicles ns src nan fid k m l = .ok out := by
  intro l
  induction l with
  | nil => exact fun k m _ => ⟨_, rfl⟩
  | cons v rest ih =>
    intro k m h
    have hv : v.nullish = false := h v (by simp)
    simp only [processVehicles, getProp, hv, Bool.false_eq_true, if_false]
    obtain ⟨tail, htail⟩ := ih _ _ (fun w hw => h w (by simp [hw]))
    rw [htail]
    exact ⟨_, rfl⟩

theorem integrate_ok (ns : String) (ctx : SvcContext) :
    ∀ pkgs : List JsVal, (∀ p ∈ pkgs, p.nullish = false) →
      ∃ out, integrateServicePackages ns ctx pkgs = .ok out := by
  intro pkgs
  induction pkgs with
  | nil => exact fun _ => ⟨_, rfl⟩
  | cons pkg rest ih =>
    intro h
    have hp : pkg.nullish = false := h pkg (by simp)
    simp only [integrateServicePackages, svcNodeEdges, getProp, hp,
      Bool.false_eq_true, if_false]
    obtain ⟨tail, htail⟩ := ih (fun w hw => h w (by simp [hw]))
    rw [htail]
    exact ⟨_, rfl⟩

/-- Claim C1, amended: `buildFleetGraph()` returns a graph (never throws)
for arbitrary file-level states of all upstream inputs — missing, unreadable,
malformed JSON, wrong top-level shapes — provided no element of the effective
vehicle list or of the service-package list is `null`; and whenever the
service-package artifact's content fails to parse, the graph has zero
`ServicePackage` nodes.  (A `null` element makes the property accesses in
`summarizeVehicles` / the vehicle loop / the package loop throw, refuting the
claim's unqualified "arbitrarily shaped contents" — see the counterexample.) -/
theorem buildFleetGraph_total_of_no_nullish (env : Env)
    (hveh : ∀ v ∈ (loadInventory env).vehicles, v.nullish = false)
    (hpkg : ∀ p ∈ loadServicePackages env, p.nullish = false) :
    ∃ g, buildFleetGraph env = .ok g ∧
      ∀ s, env.svcRead = some s → (env.parse s).isOk = false →
        g.nodes.filter (fun n => n.type == "ServicePackage") = [] := by
  have hsum : ∃ stats,
      summarizeVehicles (loadInventory env).vehicles = .ok stats := by
    by_cases hl : (loadInventory env).vehicles = []
    · exact ⟨⟨0, 0, []⟩, by rw [hl]; rfl⟩
    · exact ⟨_, summarizeVehicles_ok _ hl hveh⟩
  obtain ⟨stats, hs⟩ := hsum
  obtain ⟨vp, hv⟩ := processVehicles_ok env.nspace (loadInventory env).source
    env.nanoids (fleetNodeIdOf env) (loadInventory env).vehicles 1 [] hveh
  obtain ⟨sp, hi⟩ := integrate_ok env.nspace
    ⟨fleetNodeIdOf env,
     (uiPartOf env (personaPartOf env vp.nanoidIdx).2.2).2.2, vp.vmap⟩
    (loadServicePackages env) hpkg
  have hbuild : buildFleetGraph env = .ok
      ⟨fleetNodeOf env stats :: vp.nodes ++ (personaPartOf env vp.nanoidIdx).1 ++
        (uiPartOf env (personaPartOf env vp.nanoidIdx).2.2).1 ++ sp.1,
       vp.edges ++ (personaPartOf env vp.nanoidIdx).2.1 ++
        (uiPartOf env (personaPartOf env vp.nanoidIdx).2.2).2.1 ++ sp.2,
       ⟨env.nspace, env.carhubRoot, env.generatedAt⟩⟩ := by
    simp only [buildFleetGraph, hs, hv, hi]
  refine ⟨_, hbuild, ?_⟩
  intro s hsrd hperr
  obtain ⟨stats2, vp2, sp2, hs2, hv2, hi2, hnodes2, _⟩ := build_parts hbuild
  have hnil : loadServicePackages env = [] := by
    simp only [loadServicePackages]
    cases hex : env.svcExists
    · rfl
    · rw [hsrd]
      cases hp : env.parse s with
      | error e => simp [hp]
      | ok j => simp [hp, Except.isOk, Except.toBool] at hperr
  have hsp : sp2 = ([], []) := by
    rw [hnil] at hi2
    simp only [integrateServicePackages] at hi2
    injection hi2 with h1
    exact h1.symm
  rw [serviceNodes_filter hnodes2 hv2 hi2, hsp]

/-- Witness for claim C1's amended theorem: a well-formed vehicle and a
service-package artifact that is invalid JSON yield a successful build with
zero `ServicePackage` nodes. -/
theorem buildFleetGraph_total_witness :
    ∃ g, buildFleetGraph envOneVehicle = .ok g ∧
      g.nodes.filter (fun n => n.type == "ServicePackage") = [] := by
  obtain ⟨g, hg, himp⟩ :=
    buildFleetGraph_total_of_no_nullish envOneVehicle (by decide) (by decide)
  exact ⟨g, hg, himp "svcjson" rfl rfl⟩

/-- Counterexample to claim C1 as stated: an inventory file whose `cars`
array contains a `null` element makes `buildFleetGraph()` throw (the
`Number(car.range)` access inside `summarizeVehicles` dereferences `null`),
so the build does not terminate with a graph for arbitrarily shaped
contents. -/
theorem buildFleetGraph_throws_on_null_vehicle :
    (loadInventory envNullVehicle).vehicles = [.null] ∧
    (buildFleetGraph envNullVehicle).isOk = false :=
  ⟨rfl, rfl⟩

/-- Claim C4: for every filename accepted by the image-extension filter, the
synthetic vehicle's fields are the stated deterministic functions of the
parsed `make` / `model` / `variant` segments, and synthetic generation is a
pure function of the directory listing (so two builds over the same listing
agree byte for byte). -/
theorem synthetic_fields_deterministic (f : String)
    (_himg : isImageFile f = true) :
    getField (syntheticVehicle f) "make" =
      .str (toTitle (parseAssetName f).make) ∧
    getField (syntheticVehicle f) "model" =
      .str (toTitle (parseAssetName f).model) ∧
    getField (syntheticVehicle f) "range" =
      .num (JNum.ofNat (250 + (charCode0 (parseAssetName f).make +
        charCode0 (parseAssetName f).model) % 100)) ∧
    getField (syntheticVehicle f) "price" =
      .num (JNum.ofInt (jsRound (JNum.div
        (JNum.ofNat (30000 + charCode0 (parseAssetName f).make * 500))
        (JNum.ofNat 100)) * 100)) ∧
    getField (syntheticVehicle f) "battery" =
      .str (if strIncludes (parseAssetName f).variant "sport" ||
              strIncludes (parseAssetName f).variant "performance" then
              "95 kWh"
            else if strIncludes (parseAssetName f).variant "camry" ||
              strIncludes (parseAssetName f).variant "accord" then "70 kWh"
            else "80 kWh") ∧
    ∀ env env' : Env, env.assetsDirExists = env'.assetsDirExists →
      env.assetFiles = env'.assetFiles →
      loadAssetsInventory env = loadAssetsInventory env' := by
  refine ⟨rfl, rfl, rfl, rfl, rfl, ?_⟩
  intro env env' h1 h2
  simp only [loadAssetsInventory, h1, h2]

/-- Witness for claim C4 at the spec's example filename
`"toyota-camry-sport.png"`: make `Toyota`, range `265`, price `88000`,
battery `95 kWh`. -/
theorem synthetic_fields_witness :
    isImageFile "toyota-camry-sport.png" = true ∧
    getField (syntheticVehicle "toyota-camry-sport.png") "make" =
      .str "Toyota" ∧
    getField (syntheticVehicle "toyota-camry-sport.png") "model" =
      .str "Camry" ∧
    getField (syntheticVehicle "toyota-camry-sport.png") "range" =
      .num ⟨265, 1⟩ ∧
    getField (syntheticVehicle "toyota-camry-sport.png") "price" =
      .num ⟨88000, 1⟩ ∧
    getField (syntheticVehicle "toyota-camry-sport.png") "battery" =
      .str "95 kWh" := by
  have h := synthetic_fields_deterministic "toyota-camry-sport.png" (by decide)
  exact ⟨by decide, h.1.trans rfl, h.2.1.trans rfl, h.2.2.1.trans rfl,
    h.2.2.2.1.trans rfl, h.2.2.2.2.1.trans rfl⟩

/-- Claim C6: `summarizeVehicles` returns zeros and an empty trim list on the
empty input; on every non-empty list of (non-null) vehicle records, `total`
is the length, `avgRange` is the rounded mean of the ranges (missing or
non-numeric ranges contributing `0`), and `trims` is the first-occurrence
deduplication of the vehicles' trims, defaulting falsy trims to
`"standard"`. -/
theorem summarizeVehicles_spec :
    summarizeVehicles [] = .ok ⟨0, 0, []⟩ ∧
    ∀ vehicles : List JsVal, vehicles ≠ [] →
      (∀ v ∈ vehicles, v.nullish = false) →
      summarizeVehicles vehicles = .ok ⟨vehicles.length,
        jsRound (JNum.div (sumList (vehicles.map rangeContrib))
          (JNum.ofNat vehicles.length)),
        dedupSeen [] (vehicles.map trimOf)⟩ :=
  ⟨rfl, fun vehicles hne h => summarizeVehicles_ok vehicles hne h⟩

/-- Witness for claim C6 at the spec's example list
`[{range: 100, trim: "sport"}, {range: 300}]`. -/
theorem summarizeVehicles_spec_witness :
    summarizeVehicles [.obj [("range", .num ⟨100, 1⟩), ("trim", .str "sport")],
      .obj [("range", .num ⟨300, 1⟩)]] =
      .ok ⟨2, 200, [.str "sport", .str "standard"]⟩ := by
  have h := summarizeVehicles_spec.2
    [.obj [("range", .num ⟨100, 1⟩), ("trim", .str "sport")],
     .obj [("range", .num ⟨300, 1⟩)]]
    (by simp) (by decide)
  exact h.trans rfl

/-- Claim C7: `loadInventory()` falls back to the synthetic asset inventory
(with the asset directory as `source`) exactly when the primary file's
vehicle list comes up empty — missing/unreadable file, invalid JSON, wrong
shape, or an empty array — and otherwise returns the primary vehicles with
the primary file path as `source`; the two paths always differ. -/
theorem loadInventory_fallback (env : Env) :
    dbPath env ≠ assetsDir env ∧
    ((dbVehicles env).isEmpty = true →
      loadInventory env = ⟨loadAssetsInventory env, assetsDir env⟩) ∧
    ((dbVehicles env).isEmpty = false →
      loadInventory env = ⟨dbVehicles env, dbPath env⟩) := by
  refine ⟨?_, ?_, ?_⟩
  · intro h
    have := append_left_cancel h
    exact absurd this (by decide)
  · intro h
    simp [loadInventory, h]
  · intro h
    simp [loadInventory, h]

/-- Witness for claim C7: an unreadable primary inventory with a non-empty
asset directory yields a non-empty synthetic vehicle list attributed to the
asset directory. -/
theorem loadInventory_fallback_witness :
    loadInventory envAssetsOnly =
      ⟨loadAssetsInventory envAssetsOnly, assetsDir envAssetsOnly⟩ ∧
    dbPath envAssetsOnly ≠ assetsDir envAssetsOnly ∧
    (loadInventory envAssetsOnly).vehicles.length = 1 :=
  ⟨(loadInventory_fallback envAssetsOnly).2.1 (by decide),
   (loadInventory_fallback envAssetsOnly).1, rfl⟩

/-- Claim C8 (code bug): on a persona source text containing an ordinary
`const defaultUser = { ... };` assignment, `loadPersonaMetadata()` returns
`persona: null` — the regex literal double-escapes its backslashes
(`\\s` instead of `\s`), so it demands literal backslash-and-`s` characters
and can never match whitespace-separated source.  The second conjunct
exhibits a string the broken pattern does accept. -/
theorem loadPersonaMetadata_regex_bug :
    strIncludes "const defaultUser = \x7b name: \"John Doe\" \x7d;"
      "const defaultUser = \x7b" = true ∧
    (loadPersonaMetadata envPersonaText).persona = none ∧
    personaScan ("xx const\\sdefaultUser\\=\\\x7bsS\\s\x7d;").data =
      some "\x7bsS\\s\x7d".data :=
  ⟨rfl, rfl, rfl⟩

/-- Claim C9, amended: the synthesized vehicle id is the hyphen-join of the
parsed `make` / `model` / `variant` segments exactly as they appear in the
filename — it is not lower-cased. -/
theorem synthetic_id_join (f : String) :
    getField (syntheticVehicle f) "id" =
      .str ((parseAssetName f).make ++ "-" ++ (parseAssetName f).model ++
        "-" ++ (parseAssetName f).variant) := rfl

/-- Counterexample to claim C9 as stated: for `"Toyota-Camry.png"` the
synthesized id keeps the original casing, so it differs from the lower-cased
hyphen-join the claim prescribes. -/
theorem synthetic_id_not_lowercased :
    parseAssetName "Toyota-Camry.png" = ⟨"Toyota", "Camry", "base"⟩ ∧
    getField (syntheticVehicle "Toyota-Camry.png") "id" =
      .str "Toyota-Camry-base" ∧
    "Toyota-Camry-base" ≠ lowerStr ("Toyota" ++ "-" ++ "Camry" ++ "-" ++ "base") :=
  ⟨by decide, rfl, by decide⟩

/-- Claim C10: every synthetic vehicle record has a non-empty string id (the
`make` segment defaults guarantee it), and after the vehicle pass every such
id is registered in the vehicle lookup map, hence resolvable by `SERVICES`
edges. -/
theorem synthetic_id_registered (env : Env) (ns src : String)
    (nan : Nat → String) (fid : String) (k : Nat) (out : VehiclePass)
    (h : processVehicles ns src nan fid k [] (loadAssetsInventory env) = .ok out) :
    ∀ v ∈ loadAssetsInventory env, ∃ s, getField v "id" = .str s ∧ s ≠ "" ∧
      (mapGet out.vmap (.str s)).isSome = true := by
  intro v hv
  have hform : ∃ f, v = syntheticVehicle f := by
    simp only [loadAssetsInventory] at hv
    split at hv
    · cases hv
    · obtain ⟨f, _, rfl⟩ := List.mem_map.mp hv
      exact ⟨f, rfl⟩
  obtain ⟨f, rfl⟩ := hform
  have hmk : (parseAssetName f).make ≠ "" := by
    simp only [parseAssetName]
    cases hh : (splitOnChar '-' (baseNoExt f).data).head? with
    | none => decide
    | some s0 =>
      by_cases hs0 : s0 = []
      · simp [hs0]
      · simp only [hs0, Bool.false_eq_true, if_false]
        intro hc
        exact hs0 (congrArg String.data hc)
  have hne : (parseAssetName f).make ++ "-" ++ (parseAssetName f).model ++
      "-" ++ (parseAssetName f).variant ≠ "" := by
    intro hc
    apply hmk
    apply string_data_inj
    have hd := congrArg String.data hc
    simp only [data_append] at hd
    exact (List.append_eq_nil.mp (List.append_eq_nil.mp
      (List.append_eq_nil.mp (List.append_eq_nil.mp hd).1).1).1).1
  exact ⟨(parseAssetName f).make ++ "-" ++ (parseAssetName f).model ++ "-" ++
    (parseAssetName f).variant, rfl, hne,
    processVehicles_registers ns src nan fid _ _ _ _ h _ hv _ rfl hne⟩

/-- Witness for claim C10 at a concrete asset directory with one image. -/
theorem synthetic_id_registered_witness :
    ∃ out, processVehicles "carhub" "src" (fun n => "n" ++ toString n)
        "fleet" 1 [] (loadAssetsInventory envAssetsOnly) = .ok out ∧
      ∃ s, getField (syntheticVehicle "toyota-camry-sport.png") "id" =
        .str s ∧ s ≠ "" ∧ (mapGet out.vmap (.str s)).isSome = true := by
  refine ⟨_, rfl, ?_⟩
  have hmem : syntheticVehicle "toyota-camry-sport.png" ∈
      loadAssetsInventory envAssetsOnly := by
    have h0 : loadAssetsInventory envAssetsOnly =
        [syntheticVehicle "toyota-camry-sport.png"] := rfl
    rw [h0]
    exact List.mem_singleton.mpr rfl
  exact synthetic_id_registered envAssetsOnly "carhub" "src"
    (fun n => "n" ++ toString n) "fleet" 1 _ rfl _ hmem

/-! ## Service-package edge accounting -/

theorem integrate_nodes_map (ns : String) (ctx : SvcContext) :
    ∀ (pkgs : List JsVal) (out : List Node × List Edge),
      integrateServicePackages ns ctx pkgs = .ok out →
      out.1 = pkgs.map (fun p => (svcParts ns ctx p).1) := by
  intro pkgs
  induction pkgs with
  | nil =>
    intro out h
    simp only [integrateServicePackages] at h
    cases h
    rfl
  | cons pkg rest ih =>
    intro out h
    simp only [integrateServicePackages] at h
    split at h
    · cases h
    · next part heqpart =>
      split at h
      · cases h
      · next tail heq =>
        cases h
        obtain rfl := svcNodeEdges_ok heqpart
        simp only [List.map_cons]
        rw [ih _ heq]

theorem integrate_edges_from (ns : String) (ctx : SvcContext) :
    ∀ (pkgs : List JsVal) (out : List Node × List Edge),
      integrateServicePackages ns ctx pkgs = .ok out →
      ∀ e ∈ out.2, ∃ n ∈ out.1, e.fromId = n.id := by
  intro pkgs
  induction pkgs with
  | nil =>
    intro out h
    simp only [integrateServicePackages] at h
    cases h
    intro e he
    cases he
  | cons pkg rest ih =>
    intro out h
    simp only [integrateServicePackages] at h
    split at h
    · cases h
    · next part heqpart =>
      split at h
      · cases h
      · next tail heq =>
        cases h
        obtain rfl := svcNodeEdges_ok heqpart
        intro e he
        rcases List.mem_append.mp he with h1 | h1
        · obtain ⟨hf, _⟩ := (svcParts_shape ns ctx pkg).2.2 e h1
          exact ⟨(svcParts ns ctx pkg).1, by simp, hf⟩
        · obtain ⟨n, hn, hfn⟩ := ih _ heq e h1
          exact ⟨n, by simp [hn], hfn⟩

/-- The three per-relation edge filters of a single package's pushes. -/
theorem svcParts_filter (ns : String) (ctx : SvcContext) (pkg : JsVal) :
    ((svcParts ns ctx pkg).2.filter (fun e =>
      e.fromId == (svcParts ns ctx pkg).1.id && e.relation == "SERVICES") =
      (match mapGet ctx.vehicleNodeMap (getField pkg "vehicleId") with
       | some vid => [⟨(svcParts ns ctx pkg).1.id ++ "->" ++ vid,
           (svcParts ns ctx pkg).1.id, vid, "SERVICES"⟩]
       | none => [])) ∧
    ((svcParts ns ctx pkg).2.filter (fun e =>
      e.fromId == (svcParts ns ctx pkg).1.id && e.relation == "SURFACES_IN") =
      (match ctx.uiNodeId with
       | some u => [⟨(svcParts ns ctx pkg).1.id ++ "->ui",
           (svcParts ns ctx pkg).1.id, u, "SURFACES_IN"⟩]
       | none => [])) ∧
    ((svcParts ns ctx pkg).2.filter (fun e =>
      e.fromId == (svcParts ns ctx pkg).1.id && e.relation == "ALIGN_WITH") =
      [⟨(svcParts ns ctx pkg).1.id ++ "->fleet",
        (svcParts ns ctx pkg).1.id, ctx.fleetNodeId, "ALIGN_WITH"⟩]) := by
  cases hg : mapGet ctx.vehicleNodeMap (getField pkg "vehicleId") with
  | none =>
    cases hu : ctx.uiNodeId with
    | none => refine ⟨?_, ?_, ?_⟩ <;> simp [svcParts, hg, hu, List.filter]
    | some u => refine ⟨?_, ?_, ?_⟩ <;> simp [svcParts, hg, hu, List.filter]
  | some vid =>
    cases hu : ctx.uiNodeId with
    | none => refine ⟨?_, ?_, ?_⟩ <;> simp [svcParts, hg, hu, List.filter]
    | some u => refine ⟨?_, ?_, ?_⟩ <;> simp [svcParts, hg, hu, List.filter]

/-- With pairwise-distinct service node ids, filtering the whole
edge output of `integrateServicePackages` by one package's node id gives
exactly that package's own edges. -/
theorem integrate_filter (ns : String) (ctx : SvcContext) :
    ∀ (pkgs : List JsVal) (out : List Node × List Edge),
      integrateServicePackages ns ctx pkgs = .ok out →
      (out.1.map Node.id).Nodup →
      ∀ pkg ∈ pkgs, ∀ R : String,
        out.2.filter (fun e =>
          e.fromId == (svcParts ns ctx pkg).1.id && e.relation == R) =
        (svcParts ns ctx pkg).2.filter (fun e =>
          e.fromId == (svcParts ns ctx pkg).1.id && e.relation == R) := by
  intro pkgs
  induction pkgs with
  | nil =>
    intro out h _ pkg hpkg
    cases hpkg
  | cons pkg0 rest ih =>
    intro out h hnodup pkg hpkg R
    simp only [integrateServicePackages] at h
    split at h
    · cases h
    · next part heqpart =>
      split at h
      · cases h
      · next tail heq =>
        cases h
        obtain rfl := svcNodeEdges_ok heqpart
        simp only [List.map_cons, List.nodup_cons] at hnodup
        obtain ⟨hnotin, hnodup2⟩ := hnodup
        rcases List.mem_cons.mp hpkg with rfl | hmem
        · -- the package at the head: the tail contributes nothing
          have htail : tail.2.filter (fun e =>
              e.fromId == (svcParts ns ctx pkg).1.id && e.relation == R) = [] := by
            refine filter_nil_of_none _ _ (fun e he => ?_)
            obtain ⟨n, hn, hfn⟩ := integrate_edges_from ns ctx rest tail heq e he
            have hne : n.id ≠ (svcParts ns ctx pkg).1.id := by
              intro hEq
              exact hnotin (hEq ▸ List.mem_map_of_mem Node.id hn)
            simp [hfn, hne]
          simp [List.filter_append, htail]
        · -- the package in the tail: the head contributes nothing
          have hid : (svcParts ns ctx pkg).1.id ∈ tail.1.map Node.id := by
            rw [integrate_nodes_map ns ctx rest tail heq]
            rw [List.map_map]
            exact List.mem_map_of_mem _ hmem
          have hne : (svcParts ns ctx pkg0).1.id ≠ (svcParts ns ctx pkg).1.id := by
            intro hEq
            exact hnotin (hEq ▸ hid)
          have hhead : (svcParts ns ctx pkg0).2.filter (fun e =>
              e.fromId == (svcParts ns ctx pkg).1.id && e.relation == R) = [] := by
            refine filter_nil_of_none _ _ (fun e he => ?_)
            obtain ⟨hf, _⟩ := (svcParts_shape ns ctx pkg0).2.2 e he
            simp [hf, hne]
          simp only [List.filter_append, hhead, List.nil_append]
          exact ih _ heq hnodup2 pkg hmem R

theorem mapGet_some_mem {m : List (JsVal × String)} {x : JsVal} {vid : String}
    (h : mapGet m x = some vid) : ∃ kv ∈ m, kv.snd = vid := by
  simp only [mapGet] at h
  cases hf : m.find? (fun kv => jsKeyEq kv.fst x) with
  | none => rw [hf] at h; cases h
  | some kv =>
    rw [hf] at h
    injection h with h1
    exact ⟨kv, List.mem_of_find?_eq_some hf, h1⟩

theorem mem_mapSet {m : List (JsVal × String)} {k : JsVal} {v : String}
    {kv : JsVal × String} (h : kv ∈ mapSet m k v) :
    kv ∈ m ∨ kv.snd = v := by
  simp only [mapSet] at h
  split at h
  · obtain ⟨kv0, hkv0, hEq⟩ := List.mem_map.mp h
    by_cases hk : jsKeyEq kv0.fst k = true
    · right
      rw [if_pos hk] at hEq
      rw [← hEq]
    · left
      rw [if_neg hk] at hEq
      exact hEq ▸ hkv0
  · rcases List.mem_append.mp h with h1 | h1
    · exact Or.inl h1
    · right
      rcases List.mem_singleton.mp h1 with rfl
      rfl

theorem processVehicles_vmap_values (ns src : String) (nan : Nat → String)
    (fid : String) :
    ∀ (l : List JsVal) (k : Nat) (m : List (JsVal × String)) (out : VehiclePass),
      processVehicles ns src nan fid k m l = .ok out →
      ∀ kv ∈ out.vmap, kv ∈ m ∨ ∃ n ∈ out.nodes, n.id = kv.snd := by
  intro l
  induction l with
  | nil =>
    intro k m out h kv hkv
    simp only [processVehicles] at h
    cases h
    exact Or.inl hkv
  | cons v rest ih =>
    intro k m out h kv hkv
    simp only [processVehicles] at h
    split at h
    · cases h
    · next idv hid =>
      split at h
      · cases h
      · next tail heq =>
        cases h
        rcases ih _ _ _ heq kv hkv with h1 | ⟨n, hn, hnid⟩
        · by_cases ht : truthy idv = true
          · rw [if_pos ht] at h1
            rcases mem_mapSet h1 with h2 | h2
            · exact Or.inl h2
            · exact Or.inr ⟨_, List.mem_cons_self _ _, h2.symm⟩
          · rw [if_neg ht] at h1
            exact Or.inl h1
        · exact Or.inr ⟨n, by simp [hn], hnid⟩

/-- Claim C5, amended: provided the `ServicePackage` node ids are pairwise
distinct, each service package's node has exactly one `SERVICES` edge to the
`Vehicle` node resolved from its `vehicleId` when the lookup succeeds and
zero otherwise; exactly one `SURFACES_IN` edge to the `UIComponentSet` node
when that node exists and zero otherwise; and always exactly one
`ALIGN_WITH` edge to the `FleetInventory` root. -/
theorem servicePackage_edges (env : Env) (g : Graph)
    (hbuild : buildFleetGraph env = .ok g)
    (hnodup : ((g.nodes.filter
      (fun n => n.type == "ServicePackage")).map Node.id).Nodup)
    (vp : VehiclePass)
    (hv : processVehicles env.nspace (loadInventory env).source env.nanoids
      (fleetNodeIdOf env) 1 [] (loadInventory env).vehicles = .ok vp) :
    ∀ pkg ∈ loadServicePackages env,
      ((mapGet vp.vmap (getField pkg "vehicleId") = none →
        (g.edges.filter (fun e => e.fromId == svcNodeIdOf env pkg &&
          e.relation == "SERVICES")).length = 0) ∧
       (∀ vid, mapGet vp.vmap (getField pkg "vehicleId") = some vid →
        (g.edges.filter (fun e => e.fromId == svcNodeIdOf env pkg &&
          e.relation == "SERVICES")).length = 1 ∧
        (∃ vn ∈ g.nodes, vn.type = "Vehicle" ∧ vn.id = vid) ∧
        ∀ e ∈ g.edges, e.fromId = svcNodeIdOf env pkg →
          e.relation = "SERVICES" → e.toId = vid)) ∧
      (((uiPartOf env (personaPartOf env vp.nanoidIdx).2.2).2.2 = none →
        (∀ n ∈ g.nodes, n.type ≠ "UIComponentSet") ∧
        (g.edges.filter (fun e => e.fromId == svcNodeIdOf env pkg &&
          e.relation == "SURFACES_IN")).length = 0) ∧
       (∀ u, (uiPartOf env (personaPartOf env vp.nanoidIdx).2.2).2.2 = some u →
        (∃ un ∈ g.nodes, un.type = "UIComponentSet" ∧ un.id = u) ∧
        (g.edges.filter (fun e => e.fromId == svcNodeIdOf env pkg &&
          e.relation == "SURFACES_IN")).length = 1 ∧
        ∀ e ∈ g.edges, e.fromId = svcNodeIdOf env pkg →
          e.relation = "SURFACES_IN" → e.toId = u)) ∧
      ((g.edges.filter (fun e => e.fromId == svcNodeIdOf env pkg &&
          e.relation == "ALIGN_WITH")).length = 1 ∧
       ∀ e ∈ g.edges, e.fromId = svcNodeIdOf env pkg →
         e.relation = "ALIGN_WITH" →
         ∃ root ∈ g.nodes, root.type = "FleetInventory" ∧ e.toId = root.id) := by
  obtain ⟨stats, vp2, sp, hs, hv2, hi, hnodes, hedges⟩ := build_parts hbuild
  have hvpe : vp = vp2 := by
    have h12 := hv.symm.trans hv2
    injection h12
  subst hvpe
  have hnodup2 : (sp.1.map Node.id).Nodup := by
    rw [serviceNodes_filter hnodes hv hi] at hnodup
    exact hnodup
  obtain ⟨hed, hvn⟩ := processVehicles_shape _ _ _ _ _ _ _ _ hv
  intro pkg hpkg
  have hparts : ∀ R : String, ("PART_OF" == R) = false →
      ("TARGETS" == R) = false → ("VISUALIZES" == R) = false →
      g.edges.filter (fun e => e.fromId == svcNodeIdOf env pkg &&
        e.relation == R) =
      (svcParts env.nspace
        ⟨fleetNodeIdOf env,
         (uiPartOf env (personaPartOf env vp.nanoidIdx).2.2).2.2, vp.vmap⟩
        pkg).2.filter (fun e => e.fromId == svcNodeIdOf env pkg &&
        e.relation == R) := by
    intro R h1 h2 h3
    have hv0 : vp.edges.filter (fun e => e.fromId == svcNodeIdOf env pkg &&
        e.relation == R) = [] := by
      refine filter_nil_of_none _ _ (fun e he => ?_)
      rw [hed] at he
      obtain ⟨n, _, rfl⟩ := List.mem_map.mp he
      exact edge_false_of_rel rfl h1
    have hp0 : (personaPartOf env vp.nanoidIdx).2.1.filter
        (fun e => e.fromId == svcNodeIdOf env pkg && e.relation == R) = [] :=
      filter_nil_of_none _ _ (fun e he =>
        edge_false_of_rel (personaPart_edges env _ e he).1 h2)
    have hu0 : (uiPartOf env (personaPartOf env vp.nanoidIdx).2.2).2.1.filter
        (fun e => e.fromId == svcNodeIdOf env pkg && e.relation == R) = [] :=
      filter_nil_of_none _ _ (fun e he =>
        edge_false_of_rel (uiPart_edges env _ e he).1 h3)
    rw [hedges]
    simp only [List.filter_append, hv0, hp0, hu0, List.nil_append]
    exact integrate_filter env.nspace _ _ sp hi hnodup2 pkg hpkg R
  obtain ⟨hfS, hfU, hfA⟩ := svcParts_filter env.nspace
    ⟨fleetNodeIdOf env,
     (uiPartOf env (personaPartOf env vp.nanoidIdx).2.2).2.2, vp.vmap⟩ pkg
  have hidS : (svcParts env.nspace
      ⟨fleetNodeIdOf env,
       (uiPartOf env (personaPartOf env vp.nanoidIdx).2.2).2.2, vp.vmap⟩
      pkg).1.id = svcNodeIdOf env pkg := rfl
  have hmg : (⟨fleetNodeIdOf env,
      (uiPartOf env (personaPartOf env vp.nanoidIdx).2.2).2.2, vp.vmap⟩ :
      SvcContext).vehicleNodeMap = vp.vmap := rfl
  have hui : (⟨fleetNodeIdOf env,
      (uiPartOf env (personaPartOf env vp.nanoidIdx).2.2).2.2, vp.vmap⟩ :
      SvcContext).uiNodeId =
      (uiPartOf env (personaPartOf env vp.nanoidIdx).2.2).2.2 := rfl
  have hfl : (⟨fleetNodeIdOf env,
      (uiPartOf env (personaPartOf env vp.nanoidIdx).2.2).2.2, vp.vmap⟩ :
      SvcContext).fleetNodeId = fleetNodeIdOf env := rfl
  rw [hidS, hmg] at hfS
  rw [hidS, hui] at hfU
  rw [hidS, hfl] at hfA
  refine ⟨⟨?_, ?_⟩, ⟨?_, ?_⟩, ?_, ?_⟩
  · -- SERVICES, lookup fails
    intro hnone
    rw [hparts "SERVICES" rfl rfl rfl, hfS, hnone]
    rfl
  · -- SERVICES, lookup succeeds
    intro vid hsome
    have hflt := hparts "SERVICES" rfl rfl rfl
    rw [hfS, hsome] at hflt
    refine ⟨by rw [hflt]; rfl, ?_, ?_⟩
    · -- the target is a Vehicle node of the graph
      obtain ⟨kv, hkvmem, hkvsnd⟩ := mapGet_some_mem hsome
      rcases processVehicles_vmap_values _ _ _ _ _ _ _ _ hv kv hkvmem with
        h0 | ⟨n, hn, hnid⟩
      · cases h0
      · refine ⟨n, ?_, (hvn n hn).1, hnid.trans hkvsnd⟩
        rw [hnodes]
        simp [List.mem_append, hn]
    · intro e hemem hef her
      have hin : e ∈ g.edges.filter (fun e => e.fromId == svcNodeIdOf env pkg &&
          e.relation == "SERVICES") :=
        List.mem_filter.mpr ⟨hemem, by simp [hef, her]⟩
      rw [hflt] at hin
      rcases List.mem_singleton.mp hin with rfl
      rfl
  · -- SURFACES_IN, no UI node
    intro hnone
    constructor
    · intro n hn htype
      rcases node_mem_decomp hnodes hn with h1 | h1 | h1 | h1 | h1
      · rw [h1] at htype
        simp [fleetNodeOf] at htype
      · rw [(hvn n h1).1] at htype
        exact absurd htype (by decide)
      · rw [(personaPart_nodes env _ n h1).1] at htype
        exact absurd htype (by decide)
      · rcases uiPartOf_cases env (personaPartOf env vp.nanoidIdx).2.2 with
          hup | ⟨un, hup, _⟩
        · rw [hup] at h1
          cases h1
        · rw [hup] at hnone
          cases hnone
      · rw [((integrate_shape _ _ _ _ hi).1 n h1).1] at htype
        exact absurd htype (by decide)
    · rw [hparts "SURFACES_IN" rfl rfl rfl, hfU, hnone]
      rfl
  · -- SURFACES_IN, UI node present
    intro u hsome
    have hflt := hparts "SURFACES_IN" rfl rfl rfl
    rw [hfU, hsome] at hflt
    refine ⟨?_, by rw [hflt]; rfl, ?_⟩
    · rcases uiPartOf_cases env (personaPartOf env vp.nanoidIdx).2.2 with
        hup | ⟨un, hup, hut, _⟩
      · rw [hup] at hsome
        cases hsome
      · rw [hup] at hsome
        injection hsome with hues
        refine ⟨un, ?_, hut, hues⟩
        rw [hnodes, hup]
        simp [List.mem_append]
    · intro e hemem hef her
      have hin : e ∈ g.edges.filter (fun e => e.fromId == svcNodeIdOf env pkg &&
          e.relation == "SURFACES_IN") :=
        List.mem_filter.mpr ⟨hemem, by simp [hef, her]⟩
      rw [hflt] at hin
      rcases List.mem_singleton.mp hin with rfl
      rfl
  · -- ALIGN_WITH count
    rw [hparts "ALIGN_WITH" rfl rfl rfl, hfA]
    rfl
  · -- ALIGN_WITH target is the root
    intro e hemem hef her
    have hin : e ∈ g.edges.filter (fun e => e.fromId == svcNodeIdOf env pkg &&
        e.relation == "ALIGN_WITH") :=
      List.mem_filter.mpr ⟨hemem, by simp [hef, her]⟩
    rw [hparts "ALIGN_WITH" rfl rfl rfl, hfA] at hin
    rcases List.mem_singleton.mp hin with rfl
    refine ⟨fleetNodeOf env stats, ?_, rfl, rfl⟩
    rw [hnodes]
    simp

/-- Witness for claim C5's amended theorem: with one vehicle `v1`, a UI node,
and packages `p1 → v1` (resolvable) and `p2 → ghost` (unresolvable), `p1`
gets exactly one `SERVICES` edge, `p2` gets none, and `p1` gets exactly one
`ALIGN_WITH` and one `SURFACES_IN` edge. -/
theorem servicePackage_edges_witness :
    ∃ g, buildFleetGraph envSvcMix = Except.ok g ∧
    ∃ vp, processVehicles envSvcMix.nspace (loadInventory envSvcMix).source
        envSvcMix.nanoids (fleetNodeIdOf envSvcMix) 1 []
        (loadInventory envSvcMix).vehicles = Except.ok vp ∧
      (g.edges.filter (fun e => e.fromId == svcNodeIdOf envSvcMix
        (.obj [("id", .str "p1"), ("vehicleId", .str "v1")]) &&
        e.relation == "SERVICES")).length = 1 ∧
      (g.edges.filter (fun e => e.fromId == svcNodeIdOf envSvcMix
        (.obj [("id", .str "p2"), ("vehicleId", .str "ghost")]) &&
        e.relation == "SERVICES")).length = 0 ∧
      (g.edges.filter (fun e => e.fromId == svcNodeIdOf envSvcMix
        (.obj [("id", .str "p1"), ("vehicleId", .str "v1")]) &&
        e.relation == "SURFACES_IN")).length = 1 ∧
      (g.edges.filter (fun e => e.fromId == svcNodeIdOf envSvcMix
        (.obj [("id", .str "p1"), ("vehicleId", .str "v1")]) &&
        e.relation == "ALIGN_WITH")).length = 1 := by
  have hpkgs : loadServicePackages envSvcMix =
      [.obj [("id", .str "p1"), ("vehicleId", .str "v1")],
       .obj [("id", .str "p2"), ("vehicleId", .str "ghost")]] := rfl
  have hmem1 : (.obj [("id", .str "p1"), ("vehicleId", .str "v1")] : JsVal) ∈
      loadServicePackages envSvcMix := by
    rw [hpkgs]
    exact List.mem_cons_self _ _
  have hmem2 : (.obj [("id", .str "p2"), ("vehicleId", .str "ghost")] : JsVal) ∈
      loadServicePackages envSvcMix := by
    rw [hpkgs]
    exact List.mem_cons_of_mem _ (List.mem_cons_self _ _)
  refine ⟨_, rfl, _, rfl, ?_, ?_, ?_, ?_⟩
  · exact ((servicePackage_edges envSvcMix _ rfl (by decide) _ rfl _
      hmem1).1.2 _ rfl).1
  · exact (servicePackage_edges envSvcMix _ rfl (by decide) _ rfl _
      hmem2).1.1 rfl
  · exact ((servicePackage_edges envSvcMix _ rfl (by decide) _ rfl _
      hmem1).2.1.2 _ rfl).2.1
  · exact (servicePackage_edges envSvcMix _ rfl (by decide) _ rfl _
      hmem1).2.2.1

/-- Counterexample to claim C5 as stated: two service packages sharing the
id `"p1"` produce two nodes with the same id, and that node id then has two
outgoing `ALIGN_WITH` edges instead of exactly one. -/
theorem servicePackage_edges_dup_cex :
    ∃ g, buildFleetGraph envDupPkgIds = Except.ok g ∧
      ∃ pkg ∈ loadServicePackages envDupPkgIds,
        (g.edges.filter (fun e => e.fromId == svcNodeIdOf envDupPkgIds pkg &&
          e.relation == "ALIGN_WITH")).length = 2 := by
  refine ⟨_, rfl, .obj [("id", .str "p1"), ("vehicleId", .str "x")], ?_, by decide⟩
  have h0 : loadServicePackages envDupPkgIds =
      [.obj [("id", .str "p1"), ("vehicleId", .str "x")],
       .obj [("id", .str "p1"), ("vehicleId", .str "y")]] := rfl
  rw [h0]
  exact List.mem_cons_self _ _

end FleetSpec
